import Mathlib

/-!
Verification of the rest-query-parser repository (package rqp).

Go strings are modelled as lists of characters (GoStr); Go maps iterated by
range are modelled as association lists in iteration order; Go (value, error)
returns are modelled with Except or with explicit pairs of options where the
source returns both a value and an error.  The repository contains several
historical variants of the same module; each embedded function is translated
from the variant the corresponding claim cites:
  - namespace M    : the Query/Filter variant of main.go (second half) together
                     with its Filter methods from filter.go (second half);
  - namespace Adv  : the advanced Filter variant of filter.go (first half),
                     with database-field registry;
  - namespace P7   : the name-resolution functions of src/unnamed/part_007;
  - namespace H    : a heap-level rendering of the main.go variant, used for
                     the Clone aliasing claim (Filters is a slice of pointers
                     in Go; the heap model makes the sharing explicit).
-/

set_option autoImplicit false

deriving instance DecidableEq for Except

namespace Rqp

/-- Go strings, modelled as lists of characters. -/
abbrev GoStr := List Char

/-- strings.Split with a one-character separator (all separators used by the
claims are one character: the IN delimiter, the OR delimiter, ":", "=", "."). -/
def splitOnChar (c : Char) : GoStr → List GoStr
  | [] => [[]]
  | x :: xs =>
    match splitOnChar c xs with
    | [] => [[x]]
    | y :: ys => if x = c then [] :: y :: ys else (x :: y) :: ys

/-- strings.Index for a one-character needle: index of the first occurrence. -/
def idxOfChar (c : Char) : GoStr → Option Nat
  | [] => none
  | x :: xs => if x = c then some 0 else (idxOfChar c xs).map (· + 1)

/-- strings.ToUpper (ASCII range suffices for the method table and NULL). -/
def goToUpper (s : GoStr) : GoStr := s.map Char.toUpper

/-- strings.ToLower (ASCII range suffices for the reserved parameter names). -/
def goToLower (s : GoStr) : GoStr := s.map Char.toLower

/-- strings.TrimSpace. -/
def trimSpace (s : GoStr) : GoStr :=
  ((s.dropWhile Char.isWhitespace).reverse.dropWhile Char.isWhitespace).reverse

/-- strings.Trim(v, " \t") as used by cleanSliceString. -/
def trimSpaceTab (s : GoStr) : GoStr :=
  let cut : Char → Bool := fun c => c = ' ' ∨ c = '\t'
  ((s.dropWhile cut).reverse.dropWhile cut).reverse

/-- cleanSliceString from utils.go: trim each element, drop the empty ones. -/
def cleanSliceString (l : List GoStr) : List GoStr :=
  (l.map trimSpaceTab).filter (fun v => v ≠ [])

/-- strings.Contains(s, pat) for a multi-character needle. -/
def containsSub (pat : GoStr) : GoStr → Bool
  | [] => pat.isPrefixOf []
  | x :: xs => pat.isPrefixOf (x :: xs) || containsSub pat xs

/-- strings.Replace(s, pat, repl, 1): replace the first occurrence. -/
def replaceFirstOcc (pat repl : GoStr) : GoStr → GoStr
  | [] => if pat = [] then repl else []
  | x :: xs =>
    if pat.isPrefixOf (x :: xs) then repl ++ (x :: xs).drop pat.length
    else x :: replaceFirstOcc pat repl xs

/-- Digits of a decimal literal, none when empty or not all digits. -/
def natDigits : GoStr → Option Nat
  | [] => none
  | l =>
    if l.all Char.isDigit then
      some (l.foldl (fun acc c => acc * 10 + (c.toNat - 48)) 0)
    else none

/-- strconv.Atoi (overflow not modelled; the claims use small numbers). -/
def goAtoi : GoStr → Option Int
  | [] => none
  | '+' :: rest => (natDigits rest).map Int.ofNat
  | '-' :: rest => (natDigits rest).map (fun n => -(n : Int))
  | s => (natDigits s).map Int.ofNat

/-- strconv.ParseBool: the exact set of literals Go accepts. -/
def goParseBool (s : GoStr) : Option Bool :=
  if s ∈ ["1".data, "t".data, "T".data, "TRUE".data, "true".data, "True".data] then some true
  else if s ∈ ["0".data, "f".data, "F".data, "FALSE".data, "false".data, "False".data] then some false
  else none

/-- strconv.ParseFloat acceptance, modelled syntactically for plain decimal
forms (optional sign, digits with at most one dot).  Go also accepts exponent,
hex and Inf/NaN forms; no claim depends on those, and float64 values are
carried opaquely by their accepted source text. -/
def floatTokenOk (s : GoStr) : Bool :=
  let body := match s with
    | '+' :: r => r
    | '-' :: r => r
    | r => r
  body ≠ [] ∧ body.all (fun c => c.isDigit ∨ c = '.') ∧
    body.count '.' ≤ 1 ∧ body.any Char.isDigit

/-- fmt "%d" for the ints the model prints (errors.Wrapf(ErrNotInScope, "%d", i)). -/
def intToStr (i : Int) : GoStr :=
  (toString i).data

/-- The OR-group state attached to every filter (filter.go). -/
inductive StateOR where
  | NoOR
  | StartOR
  | InOR
  | EndOR
  deriving DecidableEq, Repr

export StateOR (NoOR StartOR InOR EndOR)

/-- Method is a string type in Go (type Method string). -/
abbrev Method := GoStr

def EQ : Method := "EQ".data
def NE : Method := "NE".data
def GT : Method := "GT".data
def LT : Method := "LT".data
def GTE : Method := "GTE".data
def LTE : Method := "LTE".data
def LIKE : Method := "LIKE".data
def ILIKE : Method := "ILIKE".data
def NLIKE : Method := "NLIKE".data
def NILIKE : Method := "NILIKE".data
def IS : Method := "IS".data
def NOT : Method := "NOT".data
def IN : Method := "IN".data
def NIN : Method := "NIN".data
def raw : Method := "raw".data

/-- The NULL constant (a Go string constant). -/
def NULLs : GoStr := "NULL".data

/-- translateMethods from main.go (second variant) / part_007. -/
def translateMethods : List (Method × GoStr) :=
  [(EQ, "=".data), (NE, "!=".data), (GT, ">".data), (LT, "<".data),
   (GTE, ">=".data), (LTE, "<=".data), (LIKE, "LIKE".data), (ILIKE, "ILIKE".data),
   (NLIKE, "NOT LIKE".data), (NILIKE, "NOT ILIKE".data), (IS, "IS".data),
   (NOT, "IS NOT".data), (IN, "IN".data), (NIN, "NOT IN".data)]

/-- Map access translateMethods[m] (zero value for a missing key). -/
def translate (m : Method) : GoStr :=
  (translateMethods.lookup m).getD []

/-- Membership test for the method table (the ok of a Go map access). -/
def knownMethod (m : Method) : Bool :=
  (translateMethods.lookup m).isSome

/-- Go error values of errors.go (the base errors). -/
inductive Err where
  | Required
  | BadFormat
  | EmptyValue
  | UnknownMethod
  | NotInScope
  | SimilarNames
  | MethodNotAllowed
  | FilterNotAllowed
  | FilterNotFound
  | ValidationNotFound
  deriving DecidableEq, Repr

/-- An error as surfaced through github.com/pkg/errors: a base error plus the
stack of wrapping messages (most recent first).  Go compares errors against
the package-level sentinels with ==; in the model that is equality with a
bare (no-message) error. -/
structure WErr where
  msgs : List GoStr
  base : Err
  deriving DecidableEq, Repr

/-- errors.Wrap(err, key). -/
def wrapE (key : GoStr) (e : WErr) : WErr := ⟨key :: e.msgs, e.base⟩

def bare (e : Err) : WErr := ⟨[], e⟩

/-- The coerced filter value (Go interface{}).  The NULL sentinel is the Go
string "NULL" (vStr NULLs).  float64/float32 values are carried opaquely as
their accepted source text (no claim computes with floats). -/
inductive GoValue where
  | vInt (n : Int)
  | vBool (b : Bool)
  | vStr (s : GoStr)
  | vFloat (repr : GoStr)
  | vIntList (l : List Int)
  | vStrList (l : List GoStr)
  | vFloatList (l : List GoStr)
  deriving DecidableEq, Repr

export GoValue (vInt vBool vStr vFloat vIntList vStrList vFloatList)

/-- A user validation callback (type ValidationFunc func(value interface{}) error). -/
abbrev ValidationFunc := GoValue → Option WErr

/-- Validations is a Go map name→ValidationFunc; modelled as an association
list in iteration order.  A nil function value is a present key mapping to
none. -/
abbrev Validations := List (GoStr × Option ValidationFunc)

/-- detectValidation (filter.go, identical in both variants): find the first
entry whose key is the name, or whose key is "name:tags". Returns the stored
function (which may be nil) when found. -/
def detectValidation (name : GoStr) : Validations → Option (Option ValidationFunc)
  | [] => none
  | (k, v) :: rest =>
    if ':' ∈ k then
      match splitOnChar ':' k with
      | p0 :: _ => if p0 = name then some v else detectValidation name rest
      | [] => detectValidation name rest
    else if k = name then some v else detectValidation name rest

/-- isNotNull (filter.go, identical in both variants): the value is a string,
the method is NOT and the upper-cased value is NULL. -/
def isNotNull (method : Method) (value : GoValue) : Bool :=
  match value with
  | vStr s => method = NOT ∧ goToUpper s = NULLs
  | _ => false

/-- Filter.validate (filter.go, identical in both variants): run the callback
over the coerced value; per element for []int and []string, once for
int/bool/string scalars, first failure returned directly.  Other value shapes
(floats, float slices, the NULL sentinel is a string so it IS passed) have no
case in the Go type switch and are not validated. -/
def goValidate (validate : ValidationFunc) : GoValue → Option WErr
  | vIntList l => goValidateInts validate l
  | vStrList l => goValidateStrs validate l
  | vInt n => validate (vInt n)
  | vBool b => validate (vBool b)
  | vStr s => validate (vStr s)
  | _ => none
where
  goValidateInts (validate : ValidationFunc) : List Int → Option WErr
    | [] => none
    | x :: xs =>
      match validate (vInt x) with
      | some e => some e
      | none => goValidateInts validate xs
  goValidateStrs (validate : ValidationFunc) : List GoStr → Option WErr
    | [] => none
    | x :: xs =>
      match validate (vStr x) with
      | some e => some e
      | none => goValidateStrs validate xs

/-- parseKey (filter.go, identical logic in both variants): split "name[m]".
Returns (queryName, method).  No opening bracket: the whole key with EQ.  An
opening bracket without a closing one, or an empty bracket pair, leaves the
method EQ with the name cut at the bracket.  A nonempty bracket section is
upper-cased and looked up in translateMethods. -/
def parseKeyFn (key : GoStr) : Except WErr (GoStr × Method) :=
  match idxOfChar '[' key with
  | none => .ok (key, EQ)
  | some spos =>
    let name := key.take spos
    match idxOfChar ']' (key.drop spos) with
    | none => .ok (name, EQ)
    | some epos =>
      if 1 < epos then
        let m := goToUpper ((key.drop (spos + 1)).take (epos - 1))
        if knownMethod m then .ok (name, m) else .error (bare .UnknownMethod)
      else .ok (name, EQ)

/-- Number of SQL placeholders: "?", "?, ?", "?, ?, ?", ... -/
def placeholders : Nat → GoStr
  | 0 => []
  | 1 => "?".data
  | n + 2 => "?, ".data ++ placeholders (n + 1)

/-- The elements of a collection value (a Go slice), none for scalars. -/
def collectionElems : GoValue → Option (List GoValue)
  | vIntList l => some (l.map vInt)
  | vStrList l => some (l.map vStr)
  | vFloatList l => some (l.map vFloat)
  | _ => none

/-- Modelled from the spec: the sqlx-style bindvar helper
(`in(query, args...)` of in.go, which is not under src/): for a collection
argument the single `?` placeholder is expanded to one `?` per element and the
elements are returned as the flat argument list in original order; a scalar
argument keeps its single placeholder (spec 4.6 and 8: "for all IN/NIN filters
over a collection of size n, the rendered clause contains exactly n
placeholders and Args() contributes exactly n values in original list
order"). -/
def inGo (exp : GoStr) (v : GoValue) : GoStr × List GoValue :=
  match collectionElems v with
  | some elems => (replaceFirstOcc "?".data (placeholders elems.length) exp, elems)
  | none => (exp, [v])

namespace M

/-!  The Query/Filter variant of main.go (lines 481-1423) with its Filter
methods from the second half of filter.go (lines 623-987). -/

/-- Filter (filter.go second variant): Key, Name, Method, Value, OR. -/
structure Filter where
  Key : GoStr
  Name : GoStr
  Method : Rqp.Method
  Value : GoValue
  OR : StateOR
  deriving DecidableEq, Repr

/-- Sort (main.go second variant; Sort is a Lean keyword, hence SortSpec). -/
structure SortSpec where
  By : GoStr
  Desc : Bool
  deriving DecidableEq, Repr

/-- Query (main.go second variant).  The unused Error field is omitted. -/
structure Query where
  query : List (GoStr × List GoStr)
  validations : Validations
  Fields : List GoStr
  Offset : Int
  Limit : Int
  Sorts : List SortSpec
  Filters : List Filter
  delimiterIN : Char
  delimiterOR : Char
  ignoreUnknown : Bool

/-- New() of main.go: delimiterIN ",", delimiterOR "|". -/
def NewQ : Query :=
  { query := [], validations := [], Fields := [], Offset := 0, Limit := 0,
    Sorts := [], Filters := [], delimiterIN := ',', delimiterOR := '|',
    ignoreUnknown := false }

/-- detectType (filter.go second variant, lines 669-690): scan the
validations for a "name:tag" key and map the tag to int/float/bool, default
string. -/
def detectType (name : GoStr) : Validations → GoStr
  | [] => "string".data
  | (k, _) :: rest =>
    if ':' ∈ k then
      match splitOnChar ':' k with
      | p0 :: p1 :: _ =>
        if p0 = name then
          if p1 = "int".data ∨ p1 = "i".data then "int".data
          else if p1 = "float".data ∨ p1 = "f".data then "float".data
          else if p1 = "bool".data ∨ p1 = "b".data then "bool".data
          else "string".data
        else detectType name rest
      | _ => detectType name rest
    else detectType name rest

/-- setInt (filter.go second variant, lines 889-916). -/
def setInt (method : Rqp.Method) (list : List GoStr) : Except WErr GoValue :=
  match list with
  | [v] =>
    if method ∈ [EQ, NE, GT, LT, GTE, LTE, IN, NIN] then
      match goAtoi v with
      | some i => .ok (vInt i)
      | none => .error (bare .BadFormat)
    else .error (bare .MethodNotAllowed)
  | _ =>
    if method = IN ∨ method = NIN then
      match list.mapM goAtoi with
      | some l => .ok (vIntList l)
      | none => .error (bare .BadFormat)
    else .error (bare .MethodNotAllowed)

/-- setFloat (filter.go second variant, lines 918-945); float32 values are
carried opaquely as their accepted source text. -/
def setFloat (method : Rqp.Method) (list : List GoStr) : Except WErr GoValue :=
  match list with
  | [v] =>
    if method ∈ [EQ, NE, GT, LT, GTE, LTE, IN, NIN] then
      if floatTokenOk v then .ok (vFloat v) else .error (bare .BadFormat)
    else .error (bare .MethodNotAllowed)
  | _ =>
    if method = IN ∨ method = NIN then
      if list.all floatTokenOk then .ok (vFloatList list)
      else .error (bare .BadFormat)
    else .error (bare .MethodNotAllowed)

/-- setBool (filter.go second variant, lines 947-962): EQ only, single value. -/
def setBool (method : Rqp.Method) (list : List GoStr) : Except WErr GoValue :=
  match list with
  | [v] =>
    if method ≠ EQ then .error (bare .MethodNotAllowed)
    else
      match goParseBool v with
      | some b => .ok (vBool b)
      | none => .error (bare .BadFormat)
  | _ => .error (bare .MethodNotAllowed)

/-- setString (filter.go second variant, lines 964-986).  Note: IS/NOT with a
non-NULL value falls through the switch to ErrMethodNotAllowed in this
variant. -/
def setString (method : Rqp.Method) (list : List GoStr) : Except WErr GoValue :=
  match list with
  | [v] =>
    if method ∈ [EQ, NE, GT, LT, GTE, LTE, LIKE, ILIKE, NLIKE, NILIKE, IN, NIN] then
      .ok (vStr v)
    else if method = IS ∨ method = NOT then
      if goToUpper v = NULLs then .ok (vStr NULLs)
      else .error (bare .MethodNotAllowed)
    else .error (bare .MethodNotAllowed)
  | _ =>
    if method = IN ∨ method = NIN then .ok (vStrList list)
    else .error (bare .MethodNotAllowed)

/-- parseValue (filter.go second variant, lines 792-826): split only for
IN/NIN when the delimiter occurs, then dispatch on the detected type. -/
def parseValue (method : Rqp.Method) (valueType value : GoStr) (delim : Char) :
    Except WErr GoValue :=
  let list :=
    if delim ∈ value ∧ (method = IN ∨ method = NIN) then splitOnChar delim value
    else [value]
  if valueType = "int".data then setInt method list
  else if valueType = "float".data then setFloat method list
  else if valueType = "bool".data then setBool method list
  else setString method list

/-- newFilter (filter.go second variant, lines 702-732). -/
def newFilter (rawKey value : GoStr) (delim : Char) (validations : Validations) :
    Except WErr Filter :=
  match parseKeyFn rawKey with
  | .error e => .error e
  | .ok (name, method) =>
    match detectValidation name validations with
    | none => .error (bare .ValidationNotFound)
    | some validateOpt =>
      let t := detectType name validations
      match parseValue method t value delim with
      | .error e => .error e
      | .ok val =>
        match validateOpt with
        | some vf =>
          if ¬ isNotNull method val then
            match goValidate vf val with
            | some e => .error e
            | none => .ok ⟨rawKey, name, method, val, NoOR⟩
          else .ok ⟨rawKey, name, method, val, NoOR⟩
        | none => .ok ⟨rawKey, name, method, val, NoOR⟩

/-- Filter.Where (filter.go second variant, lines 829-851). -/
def Filter.Where (f : Filter) : Except WErr GoStr :=
  if f.Method ∈ [EQ, NE, GT, LT, GTE, LTE, LIKE, ILIKE, NLIKE, NILIKE] then
    .ok (f.Name ++ " ".data ++ translate f.Method ++ " ?".data)
  else if f.Method = IS ∨ f.Method = NOT then
    if f.Value = vStr NULLs then
      .ok (f.Name ++ " ".data ++ translate f.Method ++ " NULL".data)
    else .error (bare .UnknownMethod)
  else if f.Method = IN ∨ f.Method = NIN then
    .ok (inGo (f.Name ++ " ".data ++ translate f.Method ++ " (?)".data) f.Value).1
  else if f.Method = raw then .ok f.Name
  else .error (bare .UnknownMethod)

/-- The loop body of Query.Where (main.go 974-1001): accumulated expression,
index, remaining filters.  A filter whose own Where errors is skipped and the
loop continues with the next index. -/
def whereAux (acc : GoStr) (i : Nat) : List Filter → GoStr
  | [] => acc
  | f :: rest =>
    let pre :=
      if f.OR = StartOR then (if i = 0 then "(".data else " AND (".data)
      else if f.OR = InOR then " OR ".data
      else if f.OR = EndOR then " OR ".data
      else if i ≠ 0 ∧ acc ≠ [] then " AND ".data
      else []
    let suf := if f.OR = EndOR then ")".data else []
    match f.Where with
    | .ok a => whereAux (acc ++ pre ++ a ++ suf) (i + 1) rest
    | .error _ => whereAux acc (i + 1) rest

/-- Query.Where over a filter list (main.go 965-1004). -/
def whereList (fs : List Filter) : GoStr := whereAux [] 0 fs

/-- Query.Where (main.go 965-1004). -/
def Query.Where (q : Query) : GoStr :=
  if q.Filters = [] then [] else whereList q.Filters

/-- The OR-state repair applied to the successor of a removed StartOR filter
(main.go 796-801). -/
def repairNext (f : Filter) : Filter :=
  { f with OR := if f.OR = EndOR then NoOR else StartOR }

/-- The OR-state repair applied to the predecessor of a removed EndOR filter
(main.go 802-808). -/
def repairPrev (f : Filter) : Filter :=
  { f with OR := if f.OR = StartOR then NoOR else EndOR }

/-- The loop of Query.RemoveFilter (main.go 776-825): acc holds the already
kept filters in reverse; at a match, the immediate successor (head of the
rest) or predecessor (head of acc) is repaired and the element is dropped. -/
def removeFilterGo (name : GoStr) (acc rest : List Filter) (found : Bool) :
    List Filter × Bool :=
  match rest with
  | [] => (acc.reverse, found)
  | v :: tail =>
    if v.Name = name then
      if v.OR = StartOR then
        match tail with
        | [] => removeFilterGo name acc [] true
        | nf :: t2 => removeFilterGo name acc (repairNext nf :: t2) true
      else if v.OR = EndOR then
        match acc with
        | [] => removeFilterGo name acc tail true
        | pf :: a2 => removeFilterGo name (repairPrev pf :: a2) tail true
      else removeFilterGo name acc tail true
    else removeFilterGo name (v :: acc) tail found
termination_by rest.length
decreasing_by all_goals simp [List.length_cons]

/-- Query.RemoveFilter (main.go 776-825): removes every filter with the name,
repairing OR states; ErrFilterNotFound when nothing matched. -/
def removeFilter (name : GoStr) (fs : List Filter) : List Filter × Option WErr :=
  let (res, found) := removeFilterGo name [] fs false
  (res, if found then none else some (bare .FilterNotFound))

/-- The loop over OR-delimited parts inside parseFilter (main.go 1210-1250).
key is the Go key variable (reassigned by parts after the first); n the total
number of parts; newly built filters are accumulated (the Go code appends them
to q.Filters one by one, so on error the earlier ones remain). -/
def parseFilterORLoop (delim : Char) (validations : Validations)
    (ignoreUnknown : Bool) (n : Nat) (key : GoStr) (i : Nat)
    (parts : List GoStr) (acc : List Filter) : Option WErr × List Filter :=
  match parts with
  | [] => (none, acc)
  | v :: rest =>
    let kv : Except WErr (GoStr × GoStr) :=
      if i ≠ 0 then
        match splitOnChar '=' v with
        | k :: v2 :: _ => .ok (k, v2)
        | _ => .error (wrapE key (bare .BadFormat))
      else .ok (key, v)
    match kv with
    | .error e => (some e, acc)
    | .ok (key, v) =>
      let v := trimSpace v
      if v = [] then (some (wrapE key (bare .EmptyValue)), acc)
      else
        match newFilter key v delim validations with
        | .error e =>
          if e = bare .ValidationNotFound then
            if ignoreUnknown then
              parseFilterORLoop delim validations ignoreUnknown n key (i + 1) rest acc
            else (some (wrapE key (bare .FilterNotFound)), acc)
          else (some (wrapE key e), acc)
        | .ok f =>
          let f := { f with OR :=
            if i = 0 then StartOR else if i = n - 1 then EndOR else InOR }
          parseFilterORLoop delim validations ignoreUnknown n key (i + 1) rest
            (acc ++ [f])

/-- parseFilter (main.go 1203-1267). -/
def parseFilter (q : Query) (key value : GoStr) : Option WErr × Query :=
  let value := trimSpace value
  if value = [] then (some (wrapE key (bare .EmptyValue)), q)
  else if q.delimiterOR ∈ value then
    let parts := splitOnChar q.delimiterOR value
    let (e, newFs) :=
      parseFilterORLoop q.delimiterIN q.validations q.ignoreUnknown
        parts.length key 0 parts []
    (e, { q with Filters := q.Filters ++ newFs })
  else
    match newFilter key value q.delimiterIN q.validations with
    | .error e =>
      if e = bare .ValidationNotFound then
        if q.ignoreUnknown then (none, q)
        else (some (wrapE key (bare .FilterNotFound)), q)
      else (some (wrapE key e), q)
    | .ok f => (none, { q with Filters := q.Filters ++ [f] })

/-- HaveFilter (main.go 714-723). -/
def haveFilter (q : Query) (name : GoStr) : Bool :=
  q.Filters.any (fun f => f.Name = name)

/-- Go map access q.validations[k]: nil both for a missing key and for a nil
stored function. -/
def lookupVF (vals : Validations) (k : GoStr) : Option ValidationFunc :=
  match vals.lookup k with
  | some (some f) => some f
  | _ => none

/-- strings.ReplaceAll(low, "[in]", "") on the reserved names (each contains
at most one occurrence). -/
def stripIn (low : GoStr) : GoStr :=
  replaceFirstOcc "[in]".data [] low

/-- The validator loop of parseSort (main.go 1297-1326). -/
def sortLoop (vf : ValidationFunc) : List GoStr → Except WErr (List SortSpec)
  | [] => .ok []
  | v :: rest =>
    let p : GoStr × Bool :=
      match v with
      | '-' :: r => (r, true)
      | '+' :: r => (r, false)
      | _ => (v, false)
    match vf (vStr p.1) with
    | some e => .error e
    | none =>
      match sortLoop vf rest with
      | .error e => .error e
      | .ok l => .ok (⟨p.1, p.2⟩ :: l)

/-- parseSort (main.go 1279-1331): single raw value, mandatory validator,
delimiter-split and cleaned list, plus or minus direction prefixes. -/
def parseSort (q : Query) (value : List GoStr) (validate : Option ValidationFunc) :
    Option WErr × Query :=
  match value with
  | [v] =>
    match validate with
    | none => (some (bare .ValidationNotFound), q)
    | some vf =>
      let list := if q.delimiterIN ∈ v then splitOnChar q.delimiterIN v else [v]
      let list := cleanSliceString list
      match sortLoop vf list with
      | .error e => (some e, q)
      | .ok l => (none, { q with Sorts := l })
  | _ => (some (bare .BadFormat), q)

/-- The validator loop of parseFields (main.go 1349-1355). -/
def fieldsLoop (vf : ValidationFunc) : List GoStr → Option WErr
  | [] => none
  | v :: rest =>
    match vf (vStr v) with
    | some e => some e
    | none => fieldsLoop vf rest

/-- parseFields (main.go 1333-1359). -/
def parseFields (q : Query) (value : List GoStr) (validate : Option ValidationFunc) :
    Option WErr × Query :=
  match value with
  | [v] =>
    match validate with
    | none => (some (bare .ValidationNotFound), q)
    | some vf =>
      let list := if q.delimiterIN ∈ v then splitOnChar q.delimiterIN v else [v]
      let list := cleanSliceString list
      match fieldsLoop vf list with
      | some e => (some e, q)
      | none => (none, { q with Fields := list })
  | _ => (some (bare .BadFormat), q)

/-- parseOffset (main.go 1361-1391). -/
def parseOffset (q : Query) (value : List GoStr) (validate : Option ValidationFunc) :
    Option WErr × Query :=
  match value with
  | [v] =>
    if v = [] then (some (bare .BadFormat), q)
    else
      match goAtoi v with
      | none => (some (bare .BadFormat), q)
      | some i =>
        if i < 0 then (some (wrapE (intToStr i) (bare .NotInScope)), q)
        else
          match validate with
          | some vf =>
            match vf (vInt i) with
            | some e => (some e, q)
            | none => (none, { q with Offset := i })
          | none => (none, { q with Offset := i })
  | _ => (some (bare .BadFormat), q)

/-- parseLimit (main.go 1393-1423). -/
def parseLimit (q : Query) (value : List GoStr) (validate : Option ValidationFunc) :
    Option WErr × Query :=
  match value with
  | [v] =>
    if v = [] then (some (bare .BadFormat), q)
    else
      match goAtoi v with
      | none => (some (bare .BadFormat), q)
      | some i =>
        if i ≤ 0 then (some (wrapE (intToStr i) (bare .NotInScope)), q)
        else
          match validate with
          | some vf =>
            match vf (vInt i) with
            | some e => (some e, q)
            | none => (none, { q with Limit := i })
          | none => (none, { q with Limit := i })
  | _ => (some (bare .BadFormat), q)

/-- The reserved names recognized by requiredNames (main.go 1184-1193). -/
def reservedLows : List GoStr :=
  ["fields".data, "fields[in]".data, "offset".data, "offset[in]".data,
   "limit".data, "limit[in]".data, "sort".data, "sort[in]".data]

/-- requiredNames (main.go 1162-1200): collect the names tagged :required and
rename the corresponding validation entries (the Go code mutates
q.validations in place; the association list keeps each renamed entry at its
position). -/
def requiredNames : Validations → List GoStr × Validations
  | [] => ([], [])
  | (name, f) :: rest =>
    let (reqR, valsR) := requiredNames rest
    if containsSub ":required".data name then
      let newname := replaceFirstOcc ":required".data [] name
      let name2 :=
        if ':' ∈ newname then ((splitOnChar ':' newname).headD []) else newname
      let low := goToLower name2
      let entry := if low ∈ reservedLows then stripIn low else name2
      (entry :: reqR, (newname, f) :: valsR)
    else (reqR, (name, f) :: valsR)

/-- The inner loop over the values of one filter key (main.go 1137-1142);
on error the state accumulated so far is kept. -/
def filterValsLoop (q : Query) (key : GoStr) : List GoStr → Option WErr × Query
  | [] => (none, q)
  | v :: rest =>
    match parseFilter q key v with
    | (some e, q2) => (some e, q2)
    | (none, q2) => filterValsLoop q2 key rest

/-- One iteration of the Parse loop (main.go 1112-1148): dispatch on the
lower-cased key; system keys delete their required entry even on failure, and
their errors are wrapped with the key; filter keys return the (already
wrapped) parseFilter error as is. -/
def processEntry (q : Query) (required : List GoStr) (key : GoStr)
    (vals : List GoStr) : Option WErr × Query × List GoStr :=
  let low := goToLower key
  if low = "fields".data ∨ low = "fields[in]".data then
    let low2 := stripIn low
    let (e, q2) := parseFields q vals (lookupVF q.validations low2)
    ((e.map (wrapE key)), q2, required.filter (· ≠ low2))
  else if low = "offset".data ∨ low = "offset[in]".data then
    let low2 := stripIn low
    let (e, q2) := parseOffset q vals (lookupVF q.validations low2)
    ((e.map (wrapE key)), q2, required.filter (· ≠ low2))
  else if low = "limit".data ∨ low = "limit[in]".data then
    let low2 := stripIn low
    let (e, q2) := parseLimit q vals (lookupVF q.validations low2)
    ((e.map (wrapE key)), q2, required.filter (· ≠ low2))
  else if low = "sort".data ∨ low = "sort[in]".data then
    let low2 := stripIn low
    let (e, q2) := parseSort q vals (lookupVF q.validations low2)
    ((e.map (wrapE key)), q2, required.filter (· ≠ low2))
  else
    if vals = [] then (some (wrapE key (bare .BadFormat)), q, required)
    else
      let (e, q2) := filterValsLoop q key vals
      (e, q2, required)

/-- The Parse loop over the query entries (main.go 1112-1148), stopping at
the first failing key with the state accumulated so far. -/
def parseEntries (q : Query) (required : List GoStr) :
    List (GoStr × List GoStr) → Option WErr × Query × List GoStr
  | [] => (none, q, required)
  | (key, vals) :: rest =>
    match processEntry q required key vals with
    | (some e, q2, req2) => (some e, q2, req2)
    | (none, q2, req2) => parseEntries q2 req2 rest

/-- Parse (main.go 1104-1159): clean the filters, extract the required names
(renaming their validation entries), run the loop, then check the required
filters. -/
def parse (q : Query) : Option WErr × Query :=
  let q1 : Query := { q with Filters := [] }
  let rv := requiredNames q1.validations
  let q2 : Query := { q1 with validations := rv.2 }
  match parseEntries q2 rv.1 q2.query with
  | (some e, qf, _) => (some e, qf)
  | (none, qf, reqf) =>
    match reqf.find? (fun n => ! haveFilter qf n) with
    | some n => (some (wrapE n (bare .Required)), qf)
    | none => (none, qf)

end M

namespace P7

/-!  The name-resolution functions of src/unnamed/part_007 (lines 831-889). -/

/-- DatabaseField of part_007 (Type is a plain string in that variant). -/
structure DatabaseField where
  Name : GoStr
  Table : GoStr
  Typ : GoStr
  deriving DecidableEq, Repr

/-- QueryDbMap of part_007: query name to database field descriptor. -/
abbrev QueryDbMap := List (GoStr × DatabaseField)

/-- Modelled from the spec: the free function detectType(name, qdbm) called
at part_007 lines 840 and 858 is not under src/; per spec 2 the
FieldTypeRegistry "maps a filter name to its declared value type": the
registered field's declared type, defaulting to string when the name is not
registered (as the in-src detectType variants do). -/
def detectType (name : GoStr) (qdbm : QueryDbMap) : GoStr :=
  match qdbm.lookup name with
  | some dbf => dbf.Typ
  | none => "string".data

/-- The trailing cast of getParameterizedNameJsonHelper for a single element
(part_007 lines 867-881). -/
def jsonHelperCast (outerType : GoStr) (e : GoStr) : GoStr :=
  if outerType = "custom".data ∨ outerType = "json".data then e
  else if outerType = "string".data then e ++ "::text".data
  else if outerType = "bool".data then e ++ "::text::boolean".data
  else if outerType = "time".data then e ++ "::text::timestamp with time zone".data
  else e ++ "::text::".data ++ outerType

/-- One json-extraction wrapping step of getParameterizedNameJsonHelper
(part_007 lines 882-884). -/
def jsonWrap (e0 e1 : GoStr) : GoStr :=
  "json_extract_path(json_strip_nulls(".data ++ e0 ++ "), \x27".data ++ e1 ++ "\x27)".data

/-- The recursion of getParameterizedNameJsonHelper always combines the first
two elements, so it is a left fold over the path elements; expressed that way
(same computation) so that it is structurally recursive. -/
def jsonHelperGo (outerType acc : GoStr) : List GoStr → GoStr
  | [] => jsonHelperCast outerType acc
  | e1 :: rest => jsonHelperGo outerType (jsonWrap acc e1) rest

/-- getParameterizedNameJsonHelper (part_007 lines 866-889): fold the
accumulated path elements into nested json_extract_path(json_strip_nulls(..))
expressions and apply the trailing cast for the outer type. -/
def getParameterizedNameJsonHelper (outerType : GoStr) (elems : List GoStr) : GoStr :=
  match elems with
  | [] => []
  | e0 :: rest => jsonHelperGo outerType e0 rest

/-- Result of the segment loop inside getParameterizedName: either the early
"return name" exit (a segment of neither json nor custom type), or the final
cur/curFormatted/jsonElems state. -/
inductive LoopRes where
  | escape
  | done (cur curF : GoStr) (jsonAcc : List GoStr)
  deriving DecidableEq, Repr

/-- The loop over elems[1:] of getParameterizedName (part_007 lines 839-855);
i is the loop index (the custom branch formats with parentheses only at
i = 0). -/
def gpnLoop (qdbm : QueryDbMap) (cur curF : GoStr) (jsonAcc : List GoStr)
    (i : Nat) : List GoStr → LoopRes
  | [] => .done cur curF jsonAcc
  | el :: rest =>
    let t := detectType cur qdbm
    if t = "json".data then
      gpnLoop qdbm el el (jsonAcc ++ [curF]) (i + 1) rest
    else if t = "custom".data then
      let curF2 :=
        if i = 0 then "(".data ++ cur ++ ").".data ++ el
        else curF ++ ".".data ++ el
      gpnLoop qdbm (cur ++ ".".data ++ el) curF2 jsonAcc (i + 1) rest
    else .escape

/-- getParameterizedName (part_007 lines 833-863): resolve a possibly dotted
query name against the registry into the backend expression. -/
def getParameterizedName (name : GoStr) (qdbm : QueryDbMap) : GoStr :=
  match splitOnChar '.' name with
  | [] => name
  | e0 :: rest =>
    if rest = [] then e0
    else
      match gpnLoop qdbm e0 e0 [] 0 rest with
      | .escape => name
      | .done _ curF jsonAcc =>
        let jsonElems := jsonAcc ++ [curF]
        if 1 < jsonElems.length then
          getParameterizedNameJsonHelper (detectType name qdbm) jsonElems
        else curF

end P7

namespace Adv

/-!  The advanced Filter variant of the first half of filter.go (lines 1-621),
whose Query carries a database-field registry. -/

/-- The field types referenced by filter.go (first half); their declaring file
is not under src/, so the enumeration is taken from the FieldType... constant
names used there and the type list of spec 2. -/
inductive FieldType where
  | fString | fInt | fFloat | fBool | fTime
  | fIntArray | fStringArray | fFloatArray | fObjectArray
  | fCustom | fJson | fObject
  deriving DecidableEq, Repr

def FieldTypeString := FieldType.fString
def FieldTypeInt := FieldType.fInt
def FieldTypeFloat := FieldType.fFloat
def FieldTypeBool := FieldType.fBool
def FieldTypeTime := FieldType.fTime
def FieldTypeIntArray := FieldType.fIntArray
def FieldTypeStringArray := FieldType.fStringArray
def FieldTypeFloatArray := FieldType.fFloatArray
def FieldTypeObjectArray := FieldType.fObjectArray
def FieldTypeCustom := FieldType.fCustom
def FieldTypeJson := FieldType.fJson
def FieldTypeObject := FieldType.fObject

/-- DatabaseField in the advanced variant (Type is a FieldType there). -/
structure DatabaseField where
  Name : GoStr
  Table : GoStr
  Typ : FieldType
  deriving DecidableEq, Repr

instance : Inhabited DatabaseField := ⟨⟨[], [], FieldType.fString⟩⟩

abbrev QueryDbMap := List (GoStr × DatabaseField)

/-- The fields of the advanced Query variant used by filter.go (the Query
struct declaration of that variant is not under src/; these two maps are the
ones its methods read). -/
structure Query where
  queryDbFieldMap : QueryDbMap
  allowedNonDbFields : List (GoStr × FieldType)

/-- detectDbField (filter.go 70-75). -/
def detectDbField (q : Query) (queryName : GoStr) : Option DatabaseField :=
  q.queryDbFieldMap.lookup queryName

/-- detectType (filter.go 54-67): registered database field's type, else the
allowed non-database fields, else string. -/
def detectType (q : Query) (queryName : GoStr) : FieldType :=
  match detectDbField q queryName with
  | some dbf => dbf.Typ
  | none =>
    match q.allowedNonDbFields.lookup queryName with
    | some t => t
    | none => FieldType.fString

/-- The string rendering of a field type, used to resolve names through the
part_007 registry model. -/
def fieldTypeStr : FieldType → GoStr
  | .fString => "string".data
  | .fInt => "int".data
  | .fFloat => "float".data
  | .fBool => "bool".data
  | .fTime => "time".data
  | .fIntArray => "intarray".data
  | .fStringArray => "stringarray".data
  | .fFloatArray => "floatarray".data
  | .fObjectArray => "objectarray".data
  | .fCustom => "custom".data
  | .fJson => "json".data
  | .fObject => "object".data

/-- Modelled from the spec: the method q.getParameterizedName(dbField) called
at filter.go 120 is not under src/; per spec 4.4 it resolves the field's name
against the registry, as the part_007 variant of the same function does. -/
def getParameterizedNameM (q : Query) (dbf : DatabaseField) : GoStr :=
  P7.getParameterizedName dbf.Name
    (q.queryDbFieldMap.map (fun p => (p.1, ⟨p.2.Name, p.2.Table, fieldTypeStr p.2.Typ⟩)))

/-- Filter (filter.go first variant, lines 24-32). -/
structure Filter where
  Key : GoStr
  ParameterizedName : GoStr
  QueryName : GoStr
  Method : Rqp.Method
  Value : GoValue
  OR : StateOR
  DbField : DatabaseField
  deriving DecidableEq, Repr

/-- setInt (filter.go first variant, lines 368-404). -/
def setInt (method : Rqp.Method) (list : List GoStr) : Except WErr GoValue :=
  match list with
  | [v] =>
    if method ∈ [EQ, NE, GT, LT, GTE, LTE, IN, NIN] then
      match goAtoi v with
      | some i => .ok (vInt i)
      | none => .error (bare .BadFormat)
    else if method = IS ∨ method = NOT then
      if goToUpper v = NULLs then .ok (vStr NULLs) else .error (bare .BadFormat)
    else .error (bare .MethodNotAllowed)
  | _ =>
    if method ∈ [IN, NIN, EQ, NE] then
      match list.mapM goAtoi with
      | some l => .ok (vIntList l)
      | none => .error (bare .BadFormat)
    else .error (bare .MethodNotAllowed)

/-- setFloat (filter.go first variant, lines 406-442). -/
def setFloat (method : Rqp.Method) (list : List GoStr) : Except WErr GoValue :=
  match list with
  | [v] =>
    if method ∈ [EQ, NE, GT, LT, GTE, LTE, IN, NIN] then
      if floatTokenOk v then .ok (vFloat v) else .error (bare .BadFormat)
    else if method = IS ∨ method = NOT then
      if goToUpper v = NULLs then .ok (vStr NULLs) else .error (bare .BadFormat)
    else .error (bare .MethodNotAllowed)
  | _ =>
    if method ∈ [IN, NIN, EQ, NE] then
      if list.all floatTokenOk then .ok (vFloatList list)
      else .error (bare .BadFormat)
    else .error (bare .MethodNotAllowed)

/-- setBool (filter.go first variant, lines 444-467). -/
def setBool (method : Rqp.Method) (list : List GoStr) : Except WErr GoValue :=
  match list with
  | [v] =>
    if method = EQ ∨ method = NE then
      match goParseBool v with
      | some b => .ok (vBool b)
      | none => .error (bare .BadFormat)
    else if method = IS ∨ method = NOT then
      if goToUpper v = NULLs then .ok (vStr NULLs) else .error (bare .BadFormat)
    else .error (bare .MethodNotAllowed)
  | _ => .error (bare .MethodNotAllowed)

/-- setString (filter.go first variant, lines 469-494); IS/NOT with a
non-NULL value is BadFormat in this variant, and EQ/NE accept multi-values. -/
def setString (method : Rqp.Method) (list : List GoStr) : Except WErr GoValue :=
  match list with
  | [v] =>
    if method ∈ [EQ, NE, GT, LT, GTE, LTE, LIKE, ILIKE, NLIKE, NILIKE, IN, NIN] then
      .ok (vStr v)
    else if method = IS ∨ method = NOT then
      if goToUpper v = NULLs then .ok (vStr NULLs) else .error (bare .BadFormat)
    else .error (bare .MethodNotAllowed)
  | _ =>
    if method ∈ [IN, NIN, EQ, NE] then .ok (vStrList list)
    else .error (bare .MethodNotAllowed)

/-- setIntArray (filter.go first variant, lines 496-519). -/
def setIntArray (method : Rqp.Method) (list : List GoStr) : Except WErr GoValue :=
  if method = EQ ∨ method = NE then
    match list.mapM goAtoi with
    | some l => .ok (vIntList l)
    | none => .error (bare .BadFormat)
  else if method = IS ∨ method = NOT then
    match list with
    | [v] => if goToUpper v = NULLs then .ok (vStr NULLs) else .error (bare .BadFormat)
    | _ => .error (bare .BadFormat)
  else .error (bare .MethodNotAllowed)

/-- setStringArray (filter.go first variant, lines 521-536). -/
def setStringArray (method : Rqp.Method) (list : List GoStr) : Except WErr GoValue :=
  if method = EQ ∨ method = NE then .ok (vStrList list)
  else if method = IS ∨ method = NOT then
    match list with
    | [v] => if goToUpper v = NULLs then .ok (vStr NULLs) else .error (bare .BadFormat)
    | _ => .error (bare .BadFormat)
  else .error (bare .MethodNotAllowed)

/-- setFloatArray (filter.go first variant, lines 538-561). -/
def setFloatArray (method : Rqp.Method) (list : List GoStr) : Except WErr GoValue :=
  if method = EQ ∨ method = NE then
    if list.all floatTokenOk then .ok (vFloatList list)
    else .error (bare .BadFormat)
  else if method = IS ∨ method = NOT then
    match list with
    | [v] => if goToUpper v = NULLs then .ok (vStr NULLs) else .error (bare .BadFormat)
    | _ => .error (bare .BadFormat)
  else .error (bare .MethodNotAllowed)

/-- setObjectArray (filter.go first variant, lines 563-576): only IS/NOT with
the NULL literal (single value), everything else ErrMethodNotAllowed. -/
def setObjectArray (method : Rqp.Method) (list : List GoStr) : Except WErr GoValue :=
  match list with
  | [v] =>
    if method = IS ∨ method = NOT then
      if goToUpper v = NULLs then .ok (vStr NULLs) else .error (bare .BadFormat)
    else .error (bare .MethodNotAllowed)
  | _ => .error (bare .MethodNotAllowed)

/-- setNullCheckable (filter.go first variant, lines 578-591). -/
def setNullCheckable (method : Rqp.Method) (list : List GoStr) : Except WErr GoValue :=
  match list with
  | [v] =>
    if method = IS ∨ method = NOT then
      if goToUpper v = NULLs then .ok (vStr NULLs) else .error (bare .BadFormat)
    else .error (bare .MethodNotAllowed)
  | _ => .error (bare .MethodNotAllowed)

/-- setTime (filter.go first variant, lines 593-621).  dateparse.ParseAny
followed by UTC RFC3339 formatting is an external collaborator; it is passed
in as parseTime, returning the canonical text on success. -/
def setTime (parseTime : GoStr → Option GoStr) (method : Rqp.Method)
    (list : List GoStr) : Except WErr GoValue :=
  match list with
  | [v] =>
    if method ∈ [EQ, NE, GT, LT, GTE, LTE, IN, NIN] then
      match parseTime v with
      | some t => .ok (vStr t)
      | none => .error (bare .BadFormat)
    else if method = IS ∨ method = NOT then
      if goToUpper v = NULLs then .ok (vStr NULLs) else .error (bare .BadFormat)
    else .error (bare .MethodNotAllowed)
  | _ =>
    if method ∈ [IN, NIN, EQ, NE] then .ok (vStrList list)
    else .error (bare .MethodNotAllowed)

/-- parseValue (filter.go first variant, lines 185-239): split whenever the
delimiter occurs, then dispatch on the field type (default: string). -/
def parseValue (parseTime : GoStr → Option GoStr) (method : Rqp.Method)
    (vt : FieldType) (value : GoStr) (delim : Char) : Except WErr GoValue :=
  let list := if delim ∈ value then splitOnChar delim value else [value]
  match vt with
  | .fInt => setInt method list
  | .fBool => setBool method list
  | .fFloat => setFloat method list
  | .fObjectArray => setObjectArray method list
  | .fIntArray => setIntArray method list
  | .fStringArray => setStringArray method list
  | .fFloatArray => setFloatArray method list
  | .fCustom => setNullCheckable method list
  | .fJson => setNullCheckable method list
  | .fObject => setNullCheckable method list
  | .fTime => setTime parseTime method list
  | .fString => setString method list

/-- newFilter (filter.go first variant, lines 87-124).  Mirrors the Go
(filter, error) pair: the missing-database-field exit returns the filter
together with ErrValidationNotFound. -/
def newFilter (q : Query) (parseTime : GoStr → Option GoStr)
    (rawKey value : GoStr) (delim : Char) (validations : Validations) :
    Option Filter × Option WErr :=
  match parseKeyFn rawKey with
  | .error e => (none, some e)
  | .ok (qname, method) =>
    let validateOpt : Option ValidationFunc :=
      match detectValidation qname validations with
      | some v => v
      | none => none
    let vt := detectType q qname
    match parseValue parseTime method vt value delim with
    | .error e => (none, some e)
    | .ok val =>
      let rejection : Option WErr :=
        if ¬ isNotNull method val then
          match validateOpt with
          | some vf => goValidate vf val
          | none => none
        else none
      match rejection with
      | some e => (none, some e)
      | none =>
        match detectDbField q qname with
        | none => (some ⟨rawKey, [], qname, method, val, NoOR, default⟩,
                   some (bare .ValidationNotFound))
        | some dbf =>
          (some ⟨rawKey, getParameterizedNameM q dbf, qname, method, val, NoOR, dbf⟩,
           none)

/-- buildStringArrayStr (filter.go first variant, lines 241-253). -/
def buildStringArrayStr (vs : List GoStr) : GoStr :=
  "\x27\x7b".data ++ List.intercalate ",".data vs ++ "\x7d\x27".data

/-- buildIntArrayStr (filter.go first variant, lines 255-267). -/
def buildIntArrayStr (vs : List Int) : GoStr :=
  "\x27\x7b".data ++ List.intercalate ",".data (vs.map intToStr) ++ "\x7d\x27".data

/-- buildFloatArrayStr (filter.go first variant, lines 269-281); the opaque
float tokens stand for strconv.FormatFloat of the stored float64. -/
def buildFloatArrayStr (vs : List GoStr) : GoStr :=
  "\x27\x7b".data ++ List.intercalate ",".data vs ++ "\x7d\x27".data

/-- Filter.Where (filter.go first variant, lines 284-321). -/
def Filter.Where (f : Filter) : Except WErr GoStr :=
  if f.Method = EQ ∨ f.Method = NE then
    match f.DbField.Typ, f.Value with
    | .fStringArray, vStrList vs =>
      let a := buildStringArrayStr vs
      .ok (f.ParameterizedName ++ " @> ".data ++ a ++ " AND ".data ++
           f.ParameterizedName ++ " <@ ".data ++ a)
    | .fIntArray, vIntList vs =>
      let a := buildIntArrayStr vs
      .ok (f.ParameterizedName ++ " @> ".data ++ a ++ " AND ".data ++
           f.ParameterizedName ++ " <@ ".data ++ a)
    | .fFloatArray, vFloatList vs =>
      let a := buildFloatArrayStr vs
      .ok (f.ParameterizedName ++ " @> ".data ++ a ++ " AND ".data ++
           f.ParameterizedName ++ " <@ ".data ++ a)
    | _, _ => .ok (f.ParameterizedName ++ " ".data ++ translate f.Method ++ " ?".data)
  else if f.Method ∈ [GT, LT, GTE, LTE, LIKE, ILIKE, NLIKE, NILIKE] then
    .ok (f.ParameterizedName ++ " ".data ++ translate f.Method ++ " ?".data)
  else if f.Method = IS ∨ f.Method = NOT then
    if f.Value = vStr NULLs then
      .ok (f.ParameterizedName ++ " ".data ++ translate f.Method ++ " NULL".data)
    else .error (bare .UnknownMethod)
  else if f.Method = IN ∨ f.Method = NIN then
    .ok (inGo (f.ParameterizedName ++ " ".data ++ translate f.Method ++ " (?)".data)
      f.Value).1
  else if f.Method = raw then .ok f.ParameterizedName
  else .error (bare .UnknownMethod)

/-- The wildcard boundary translation of Filter.Args for the LIKE family
(filter.go 348-354): a leading/trailing `*` becomes `%`. -/
def wildcardStar (v : GoStr) : GoStr :=
  let v := if 2 ≤ v.length ∧ v.take 1 = "*".data then "%".data ++ v.drop 1 else v
  if 2 ≤ v.length ∧ v.reverse.take 1 = "*".data then v.dropLast ++ "%".data else v

/-- Filter.Args (filter.go first variant, lines 324-366).  The Go code
type-asserts a string for the LIKE family (panicking otherwise); the
impossible-from-coercion non-string case is modelled as an error. -/
def Filter.Args (f : Filter) : Except WErr (List GoValue) :=
  if f.Method = EQ ∨ f.Method = NE then
    match collectionElems f.Value with
    | some _ => .ok []
    | none => .ok [f.Value]
  else if f.Method ∈ [GT, LT, GTE, LTE] then .ok [f.Value]
  else if f.Method = IS ∨ f.Method = NOT then
    if f.Value = vStr NULLs then .ok [f.Value] else .error (bare .UnknownMethod)
  else if f.Method ∈ [LIKE, ILIKE, NLIKE, NILIKE] then
    match f.Value with
    | vStr s => .ok [vStr (wildcardStar s)]
    | _ => .error (bare .BadFormat)
  else if f.Method = IN ∨ f.Method = NIN then
    .ok (inGo "?".data f.Value).2
  else if f.Method = raw then .ok []
  else .error (bare .UnknownMethod)

end Adv

namespace H

/-!  Heap-level model of the main.go variant for the Clone claim: Go's
Query.Filters is a []*Filter, so Clone copies the slice of pointers while the
pointed-to Filter records stay shared.  A store (list of filter records
indexed by address) makes the sharing explicit; the functions below are the
same main.go algorithms reading and writing through addresses. -/

/-- The heap of Filter records; an address is an index. -/
abbrev Store := List M.Filter

/-- Dereference a filter pointer. -/
def readF (st : Store) (a : Nat) : M.Filter :=
  st.getD a ⟨[], [], [], vStr [], NoOR⟩

/-- The filter-list part of a Query: a slice of pointers. -/
structure QueryH where
  Filters : List Nat
  deriving DecidableEq, Repr

/-- Query.Where (main.go 965-1004) reading the records through the
pointers. -/
def Where (st : Store) (q : QueryH) : GoStr :=
  M.whereList (q.Filters.map (readF st))

/-- Query.Clone (main.go 869-915): the Filters slice is copied element-wise,
so the clone holds the same pointers. -/
def clone (q : QueryH) : QueryH := ⟨q.Filters⟩

/-- Query.AddFilter (main.go 726-733): allocate a fresh record, append its
pointer. -/
def addFilter (st : Store) (q : QueryH) (name : GoStr) (m : Rqp.Method)
    (v : GoValue) : Store × QueryH :=
  (st ++ [⟨[], name, m, v, NoOR⟩], ⟨q.Filters ++ [st.length]⟩)

/-- The loop of Query.RemoveFilter (main.go 776-825) at the heap level: the
neighbor repairs are writes through the shared pointers. -/
def removeFilterGoH (name : GoStr) : Store → List Nat → List Nat → Bool →
    Store × List Nat × Bool
  | st, acc, [], found => (st, acc.reverse, found)
  | st, acc, a :: tail, found =>
    let v := readF st a
    if v.Name = name then
      if v.OR = StartOR then
        match tail with
        | [] => removeFilterGoH name st acc tail true
        | n :: _ =>
          removeFilterGoH name (st.set n (M.repairNext (readF st n))) acc tail true
      else if v.OR = EndOR then
        match acc with
        | [] => removeFilterGoH name st acc tail true
        | p :: _ =>
          removeFilterGoH name (st.set p (M.repairPrev (readF st p))) acc tail true
      else removeFilterGoH name st acc tail true
    else removeFilterGoH name st (a :: acc) tail found

/-- Query.RemoveFilter (main.go 776-825) at the heap level. -/
def removeFilter (name : GoStr) (st : Store) (q : QueryH) :
    Store × QueryH × Option WErr :=
  let (st2, fs, found) := removeFilterGoH name st [] q.Filters false
  (st2, ⟨fs⟩, if found then none else some (bare .FilterNotFound))

end H

/-- The parenthesis balance of a rendered fragment. -/
def pb (s : GoStr) : Int := (s.count '(' : Int) - (s.count ')' : Int)

/-- Well-formedness automaton for OR-state sequences: NoOR and StartOR only
outside a group, InOR and EndOR only inside, groups closed at the end. -/
def wfORAux : Bool → List StateOR → Bool
  | b, [] => !b
  | false, NoOR :: t => wfORAux false t
  | false, StartOR :: t => wfORAux true t
  | true, InOR :: t => wfORAux true t
  | true, EndOR :: t => wfORAux false t
  | _, _ => false

/-- The first segment of a split (the headD of splitOnChar). -/
def firstSeg (c : Char) (s : GoStr) : GoStr := (splitOnChar c s).headD []

/-!  ## Support lemmas -/

theorem idxOfChar_of_not_mem {c : Char} {s : GoStr} (h : c ∉ s) :
    idxOfChar c s = none := by
  induction s with
  | nil => rfl
  | cons x xs ih =>
    have hx : ¬ x = c := fun hx => h (hx ▸ List.mem_cons_self x xs)
    have hm : c ∉ xs := fun hm => h (List.mem_cons_of_mem x hm)
    simp [idxOfChar, hx, ih hm]

theorem idxOfChar_append_self (c : Char) (a b : GoStr) (h : c ∉ a) :
    idxOfChar c (a ++ c :: b) = some a.length := by
  induction a with
  | nil => simp [idxOfChar]
  | cons x xs ih =>
    have hx : x ≠ c := fun hx => h (hx ▸ List.mem_cons_self x xs)
    have hm : c ∉ xs := fun hm => h (List.mem_cons_of_mem x hm)
    simp [idxOfChar, hx, ih hm]

theorem drop_append_cons (a : GoStr) (x : Char) (b : GoStr) :
    (a ++ x :: b).drop (a.length + 1) = b := by
  rw [show a.length + 1 = (a ++ [x]).length by simp]
  rw [show a ++ x :: b = (a ++ [x]) ++ b by simp]
  exact List.drop_left (a ++ [x]) b

/-!  ## C7: parseKey -/

/-- C7 (amended): parseKey on a bracket-free key succeeds with method EQ and
the whole key as query name; on a key with a matching bracket pair and a
nonempty bracket section, the section is upper-cased and looked up in the
method table, UnknownMethod when absent, and the query name is the part
before the opening bracket; an empty bracket pair is treated as no method
section (EQ); an opening bracket with no closing bracket does not fail and
yields method EQ with the query name cut at the opening bracket (not the
whole key). -/
theorem parseKey_spec :
    (∀ key : GoStr, '[' ∉ key → parseKeyFn key = .ok (key, EQ))
    ∧ (∀ a b c : GoStr, '[' ∉ a → ']' ∉ b → b ≠ [] →
        parseKeyFn (a ++ '[' :: (b ++ ']' :: c)) =
          (if knownMethod (goToUpper b) then .ok (a, goToUpper b)
           else .error (bare .UnknownMethod)))
    ∧ (∀ a c : GoStr, '[' ∉ a →
        parseKeyFn (a ++ '[' :: ']' :: c) = .ok (a, EQ))
    ∧ (∀ a b : GoStr, '[' ∉ a → ']' ∉ b →
        parseKeyFn (a ++ '[' :: b) = .ok (a, EQ)) := by
  refine ⟨?_, ?_, ?_, ?_⟩
  · intro key h
    simp [parseKeyFn, idxOfChar_of_not_mem h]
  · intro a b c ha hb hbne
    have h1 : idxOfChar '[' (a ++ '[' :: (b ++ ']' :: c)) = some a.length :=
      idxOfChar_append_self '[' a (b ++ ']' :: c) ha
    have hbr : ']' ∉ ('[' : Char) :: b := by
      intro hmem
      rcases List.mem_cons.mp hmem with h | h
      · exact absurd h.symm (by decide)
      · exact hb h
    have h2 : idxOfChar ']' ('[' :: (b ++ ']' :: c)) = some (b.length + 1) := by
      have := idxOfChar_append_self ']' ('[' :: b) c hbr
      simpa using this
    have h3 : (a ++ '[' :: (b ++ ']' :: c)).drop a.length = '[' :: (b ++ ']' :: c) :=
      List.drop_left a _
    have h4 : (a ++ '[' :: (b ++ ']' :: c)).take a.length = a :=
      List.take_left a _
    have h5 : (a ++ '[' :: (b ++ ']' :: c)).drop (a.length + 1) = b ++ ']' :: c :=
      drop_append_cons a '[' (b ++ ']' :: c)
    have h6 : 1 < b.length + 1 := by
      have : 0 < b.length := List.length_pos.mpr hbne
      omega
    simp only [parseKeyFn, h1, h3, h2, h4, h5, if_pos h6]
    have h7 : b.length + 1 - 1 = b.length := by omega
    rw [h7, List.take_left b (']' :: c)]
  · intro a c ha
    have h1 : idxOfChar '[' (a ++ '[' :: ']' :: c) = some a.length :=
      idxOfChar_append_self '[' a (']' :: c) ha
    have h2 : idxOfChar ']' ('[' :: ']' :: c) = some 1 := by
      simp [idxOfChar]
    have h3 : (a ++ '[' :: ']' :: c).drop a.length = '[' :: ']' :: c :=
      List.drop_left a _
    have h4 : (a ++ '[' :: ']' :: c).take a.length = a :=
      List.take_left a _
    simp [parseKeyFn, h1, h3, h2, h4]
  · intro a b ha hb
    have h1 : idxOfChar '[' (a ++ '[' :: b) = some a.length :=
      idxOfChar_append_self '[' a b ha
    have hbr : ']' ∉ ('[' : Char) :: b := by
      intro hmem
      rcases List.mem_cons.mp hmem with h | h
      · exact absurd h.symm (by decide)
      · exact hb h
    have h2 : idxOfChar ']' ('[' :: b) = none := idxOfChar_of_not_mem hbr
    have h3 : (a ++ '[' :: b).drop a.length = '[' :: b := List.drop_left a _
    have h4 : (a ++ '[' :: b).take a.length = a := List.take_left a _
    simp [parseKeyFn, h1, h3, h2, h4]

/-- C7 witness: the amended behavior at concrete keys. -/
theorem parseKey_spec_witness :
    parseKeyFn "id".data = .ok ("id".data, EQ)
    ∧ parseKeyFn "id[gte]".data =
        (if knownMethod (goToUpper "gte".data) then .ok ("id".data, goToUpper "gte".data)
         else .error (bare .UnknownMethod)) := by
  constructor
  · exact parseKey_spec.1 "id".data (by decide)
  · exact parseKey_spec.2.1 "id".data "gte".data [] (by decide) (by decide) (by decide)

/-- C7 counterexample: a key with an opening bracket and no closing bracket
keeps only the part before the bracket as query name (not the whole key), and
an empty bracket pair succeeds with EQ instead of failing the table lookup. -/
theorem parseKey_malformed_cex :
    parseKeyFn "id[gte".data = .ok ("id".data, EQ)
    ∧ ("id".data : GoStr) ≠ "id[gte".data
    ∧ parseKeyFn "id[]".data = .ok ("id".data, EQ) := by
  refine ⟨by decide, by decide, by decide⟩

/-!  ## C10: default string typing and string coercion -/

/-- C10: a query name that is neither in the database-field registry nor among
the allowed non-database fields gets the string field type; under the string
allow-list (EQ, NE, GT, LT, GTE, LTE, LIKE, ILIKE, NLIKE, NILIKE, IN, NIN,
and IS/NOT with the NULL literal) coercion of a single value never fails, and
a single delimiter-free value reaches setString as a one-element list. -/
theorem detectType_default_string_coercion (q : Adv.Query) (name : GoStr)
    (h1 : q.queryDbFieldMap.lookup name = none)
    (h2 : q.allowedNonDbFields.lookup name = none) :
    Adv.detectType q name = Adv.FieldTypeString
    ∧ (∀ m, m ∈ [EQ, NE, GT, LT, GTE, LTE, LIKE, ILIKE, NLIKE, NILIKE, IN, NIN] →
        ∀ v : GoStr, Adv.setString m [v] = .ok (vStr v))
    ∧ (∀ (m : Method) (v : GoStr), (m = IS ∨ m = NOT) → goToUpper v = NULLs →
        Adv.setString m [v] = .ok (vStr NULLs))
    ∧ (∀ (pt : GoStr → Option GoStr) (m : Method) (delim : Char) (value : GoStr),
        delim ∉ value →
        Adv.parseValue pt m Adv.FieldType.fString value delim = Adv.setString m [value]) := by
  refine ⟨?_, ?_, ?_, ?_⟩
  · simp [Adv.detectType, Adv.detectDbField, h1, h2, Adv.FieldTypeString]
  · intro m hm v
    fin_cases hm <;> simp [Adv.setString]
  · intro m v hm hnull
    rcases hm with h | h <;> subst h <;>
      (simp only [Adv.setString]
       rw [if_neg (by decide), if_pos (by decide), if_pos hnull])
  · intro pt m delim value hd
    simp [Adv.parseValue, hd]

/-- C10 witness: concrete instance with an empty registry. -/
theorem detectType_default_string_coercion_witness :
    Adv.detectType ⟨[], []⟩ "x".data = Adv.FieldTypeString
    ∧ Adv.setString GTE ["abc".data] = .ok (vStr "abc".data) := by
  have h := detectType_default_string_coercion ⟨[], []⟩ "x".data rfl rfl
  exact ⟨h.1, h.2.1 GTE (by decide) "abc".data⟩

/-!  ## C4: IN/NIN placeholder expansion -/

theorem count_placeholders (n : Nat) : (placeholders n).count '?' = n := by
  have aux : ∀ k, (placeholders (k + 1)).count '?' = k + 1 := by
    intro k
    induction k with
    | zero => decide
    | succ j ih =>
      show (placeholders (j + 2)).count '?' = j + 2
      rw [placeholders, List.count_append, ih]
      have hone : List.count '?' "?, ".data = 1 := by decide
      omega
  cases n with
  | zero => decide
  | succ k => exact aux k

theorem replaceFirst_q (a b r : GoStr) (h : '?' ∉ a) :
    replaceFirstOcc "?".data r (a ++ '?' :: b) = a ++ (r ++ b) := by
  induction a with
  | nil => simp [replaceFirstOcc, List.isPrefixOf]
  | cons x xs ih =>
    have hx : ¬ x = '?' := fun hx => h (hx ▸ List.mem_cons_self x xs)
    have hm : '?' ∉ xs := fun hmm => h (List.mem_cons_of_mem x hmm)
    have hpre : (List.isPrefixOf "?".data (x :: (xs ++ '?' :: b))) = false := by
      simp only [List.isPrefixOf, Bool.and_eq_false_iff]
      left
      exact beq_eq_false_iff_ne.mpr (fun hh => hx hh.symm)
    rw [List.cons_append, replaceFirstOcc,
      if_neg (by rw [hpre]; exact Bool.false_ne_true), ih hm]
    simp

theorem inGo_collection (pn tm : GoStr) (v : GoValue) (l : List GoValue)
    (hv : collectionElems v = some l) (hpn : '?' ∉ pn) (htm : '?' ∉ tm) :
    inGo (pn ++ " ".data ++ tm ++ " (?)".data) v
      = (pn ++ " ".data ++ tm ++ " (".data ++ placeholders l.length ++ ")".data, l) := by
  have hsplit : pn ++ " ".data ++ tm ++ " (?)".data
      = (pn ++ " ".data ++ tm ++ " (".data) ++ '?' :: ")".data := by
    simp
  have hq : '?' ∉ pn ++ " ".data ++ tm ++ " (".data := by
    intro hmem
    simp only [List.mem_append] at hmem
    rcases hmem with ((h | h) | h) | h
    · exact hpn h
    · exact absurd h (by decide)
    · exact htm h
    · exact absurd h (by decide)
  simp only [inGo, hv]
  rw [hsplit, replaceFirst_q _ _ _ hq]
  simp

/-- C4: for an IN or NIN filter whose coerced value is a collection of n
elements, the Filter.Where expression carries exactly n placeholders (the
single bindvar is expanded to one per element) and Filter.Args returns
exactly the n elements in original order. -/
theorem in_nin_expansion (f : Adv.Filter) (l : List GoValue)
    (hm : f.Method = IN ∨ f.Method = NIN)
    (hv : collectionElems f.Value = some l)
    (hp : '?' ∉ f.ParameterizedName) :
    Adv.Filter.Where f =
      .ok (f.ParameterizedName ++ " ".data ++ translate f.Method ++ " (".data
            ++ placeholders l.length ++ ")".data)
    ∧ (f.ParameterizedName ++ " ".data ++ translate f.Method ++ " (".data
        ++ placeholders l.length ++ ")".data).count '?' = l.length
    ∧ Adv.Filter.Args f = .ok l := by
  have htm : '?' ∉ translate f.Method ∧ (translate f.Method).count '?' = 0 := by
    rcases hm with h | h <;> rw [h] <;> decide
  refine ⟨?_, ?_, ?_⟩
  · rcases hm with h | h <;>
    · simp only [Adv.Filter.Where, h]
      rw [if_neg (by decide), if_neg (by decide), if_neg (by decide),
        if_pos (by decide)]
      rw [inGo_collection _ _ _ _ hv hp (h ▸ htm.1)]
  · have e1 : (" ".data).count '?' = 0 := by decide
    have e2 : (" (".data).count '?' = 0 := by decide
    have e3 : (")".data).count '?' = 0 := by decide
    simp [List.count_append, count_placeholders, List.count_eq_zero.mpr hp,
      htm.2, e1, e2, e3]
  · rcases hm with h | h <;>
    · simp only [Adv.Filter.Args, h]
      rw [if_neg (by decide), if_neg (by decide), if_neg (by decide),
        if_neg (by decide), if_pos (by decide)]
      simp [inGo, hv]

/-- C4 witness: a concrete three-element IN filter. -/
theorem in_nin_expansion_witness :
    Adv.Filter.Where ⟨"k".data, "id".data, "id".data, IN, vIntList [1, 2, 3], NoOR,
        ⟨"id".data, "t".data, Adv.FieldType.fInt⟩⟩ = .ok "id IN (?, ?, ?)".data
    ∧ Adv.Filter.Args ⟨"k".data, "id".data, "id".data, IN, vIntList [1, 2, 3], NoOR,
        ⟨"id".data, "t".data, Adv.FieldType.fInt⟩⟩ = .ok [vInt 1, vInt 2, vInt 3] := by
  have h := in_nin_expansion
    ⟨"k".data, "id".data, "id".data, IN, vIntList [1, 2, 3], NoOR,
      ⟨"id".data, "t".data, Adv.FieldType.fInt⟩⟩
    [vInt 1, vInt 2, vInt 3] (Or.inl rfl) (by decide) (by decide)
  exact ⟨by rw [h.1]; decide, h.2.2⟩

/-!  ## C2: RemoveFilter -/

theorem removeFilterGo_names (name : GoStr) (acc rest : List M.Filter) (found : Bool) :
    ((M.removeFilterGo name acc rest found).1).map M.Filter.Name
      = acc.reverse.map M.Filter.Name
        ++ (rest.filter (fun f => f.Name ≠ name)).map M.Filter.Name := by
  induction acc, rest, found using M.removeFilterGo.induct name with
  | case1 acc found => simp [M.removeFilterGo]
  | case2 acc found f hn hor ih =>
    rw [M.removeFilterGo.eq_def]
    simp only [if_pos hn, if_pos hor]
    simpa [List.filter_cons, hn] using ih
  | case3 acc found f hn hor f1 rest ih =>
    rw [M.removeFilterGo.eq_def]
    simp only [if_pos hn, if_pos hor]
    rw [ih]
    by_cases hf1 : f1.Name = name <;> simp [List.filter_cons, hn, hf1, M.repairNext]
  | case4 found f rest hn hns hor ih =>
    rw [M.removeFilterGo.eq_def]
    simp only [if_pos hn, if_neg hns, if_pos hor]
    simpa [List.filter_cons, hn] using ih
  | case5 found f rest hn hns hor f1 rest1 ih =>
    rw [M.removeFilterGo.eq_def]
    simp only [if_pos hn, if_neg hns, if_pos hor]
    rw [ih]
    simp [List.filter_cons, hn, M.repairPrev]
  | case6 acc found f rest hn hns hne ih =>
    rw [M.removeFilterGo.eq_def]
    simp only [if_pos hn, if_neg hns, if_neg hne]
    simpa [List.filter_cons, hn] using ih
  | case7 acc found f rest hn ih =>
    rw [M.removeFilterGo.eq_def]
    simp only [if_neg hn]
    rw [ih]
    simp [List.filter_cons, hn]

theorem removeFilterGo_found (name : GoStr) (acc rest : List M.Filter) (found : Bool) :
    (M.removeFilterGo name acc rest found).2
      = (found || rest.any (fun f => f.Name = name)) := by
  induction acc, rest, found using M.removeFilterGo.induct name with
  | case1 acc found => simp [M.removeFilterGo]
  | case2 acc found f hn hor ih =>
    rw [M.removeFilterGo.eq_def]
    simp only [if_pos hn, if_pos hor]
    simp [ih, hn]
  | case3 acc found f hn hor f1 rest ih =>
    rw [M.removeFilterGo.eq_def]
    simp only [if_pos hn, if_pos hor]
    rw [ih]
    by_cases hf1 : f1.Name = name <;> simp [hn, hf1, M.repairNext]
  | case4 found f rest hn hns hor ih =>
    rw [M.removeFilterGo.eq_def]
    simp only [if_pos hn, if_neg hns, if_pos hor]
    simp [ih, hn]
  | case5 found f rest hn hns hor f1 rest1 ih =>
    rw [M.removeFilterGo.eq_def]
    simp only [if_pos hn, if_neg hns, if_pos hor]
    simp [ih, hn]
  | case6 acc found f rest hn hns hne ih =>
    rw [M.removeFilterGo.eq_def]
    simp only [if_pos hn, if_neg hns, if_neg hne]
    simp [ih, hn]
  | case7 acc found f rest hn ih =>
    rw [M.removeFilterGo.eq_def]
    simp only [if_neg hn]
    simp [ih, hn]

theorem removeFilterGo_nomatch (name : GoStr) (rest : List M.Filter)
    (h : ∀ f ∈ rest, f.Name ≠ name) (acc : List M.Filter) (found : Bool) :
    M.removeFilterGo name acc rest found = (acc.reverse ++ rest, found) := by
  induction rest generalizing acc with
  | nil => simp [M.removeFilterGo]
  | cons f t ih =>
    have hf : ¬ f.Name = name := h f (List.mem_cons_self f t)
    rw [M.removeFilterGo.eq_def]
    simp only [hf, if_false, ite_false]
    rw [ih (fun g hg => h g (List.mem_cons_of_mem f hg)) (f :: acc)]
    simp

theorem removeFilterGo_skip (name : GoStr) (fs1 : List M.Filter)
    (h : ∀ f ∈ fs1, f.Name ≠ name) (acc rest : List M.Filter) (found : Bool) :
    M.removeFilterGo name acc (fs1 ++ rest) found
      = M.removeFilterGo name (fs1.reverse ++ acc) rest found := by
  induction fs1 generalizing acc with
  | nil => simp
  | cons f t ih =>
    have hf : ¬ f.Name = name := h f (List.mem_cons_self f t)
    rw [List.cons_append, M.removeFilterGo.eq_def]
    simp only [hf, if_false, ite_false]
    rw [ih (fun g hg => h g (List.mem_cons_of_mem f hg)) (f :: acc)]
    simp

/-- The repair of the immediate successor of a removed StartOR filter, as a
list operation (statement helper). -/
def repairHeadList : List M.Filter → List M.Filter
  | [] => []
  | x :: t => M.repairNext x :: t

/-- The repair of the immediate predecessor of a removed EndOR filter, as a
list operation (statement helper). -/
def repairLastList (fs : List M.Filter) : List M.Filter :=
  match fs.reverse with
  | [] => []
  | x :: t => (M.repairPrev x :: t).reverse

theorem removeFilter_single (name : GoStr) (fs1 fs2 : List M.Filter)
    (v : M.Filter) (hv : v.Name = name)
    (h1 : ∀ f ∈ fs1, f.Name ≠ name) (h2 : ∀ f ∈ fs2, f.Name ≠ name) :
    M.removeFilter name (fs1 ++ v :: fs2)
      = (if v.OR = StartOR then fs1 ++ repairHeadList fs2
         else if v.OR = EndOR then repairLastList fs1 ++ fs2
         else fs1 ++ fs2, none) := by
  have hgo : M.removeFilterGo name [] (fs1 ++ v :: fs2) false
      = (if v.OR = StartOR then fs1 ++ repairHeadList fs2
         else if v.OR = EndOR then repairLastList fs1 ++ fs2
         else fs1 ++ fs2, true) := by
    rw [removeFilterGo_skip name fs1 h1 [] (v :: fs2) false]
    by_cases hS : v.OR = StartOR
    · cases fs2 with
      | nil =>
        rw [M.removeFilterGo.eq_def]
        simp only [hv, hS, if_true, ite_true, eq_self_iff_true]
        rw [removeFilterGo_nomatch name [] (by simp) _ true]
        simp [repairHeadList, hS]
      | cons x t =>
        have hx : ∀ f ∈ M.repairNext x :: t, f.Name ≠ name := by
          intro f hf
          rcases List.mem_cons.mp hf with h | h
          · subst h
            exact h2 x (List.mem_cons_self x t)
          · exact h2 f (List.mem_cons_of_mem x h)
        rw [M.removeFilterGo.eq_def]
        simp only [hv, hS, if_true, ite_true, eq_self_iff_true]
        rw [removeFilterGo_nomatch name _ hx _ true]
        simp [repairHeadList, hS]
    · by_cases hE : v.OR = EndOR
      · rcases hrev : fs1.reverse with _ | ⟨x, t⟩
        · have hnil : fs1 = [] := by
            have := congrArg List.reverse hrev
            simpa using this
          subst hnil
          rw [M.removeFilterGo.eq_def]
          simp only [hv, hS, hE, if_true, ite_true, eq_self_iff_true, if_false,
            ite_false, List.reverse_nil, List.nil_append]
          rw [removeFilterGo_nomatch name fs2 h2 [] true]
          simp [repairLastList, hS, hE]
        · rw [M.removeFilterGo.eq_def]
          simp only [hv, hS, hE, if_true, ite_true, eq_self_iff_true, if_false,
            ite_false, List.append_nil, hrev]
          rw [removeFilterGo_nomatch name fs2 h2 _ true]
          simp only [repairLastList, hrev]
          simp [hS, hE]
      · rw [M.removeFilterGo.eq_def]
        simp only [hv, hS, hE, if_true, ite_true, eq_self_iff_true, if_false,
          ite_false, List.append_nil]
        rw [removeFilterGo_nomatch name fs2 h2 _ true]
        simp [hS, hE]
  unfold M.removeFilter
  rw [hgo]
  rfl

/-- C2: RemoveFilter deletes every filter with the given name preserving the
relative order of the others (their name sequence is the filtered original);
it fails with ErrFilterNotFound exactly when no filter has the name; for a
single occurrence, a removed StartOR filter repairs its immediate successor
(EndOR successor collapses to NoOR, any other successor is promoted to
StartOR) and a removed EndOR filter symmetrically repairs its immediate
predecessor; removing the first member of a 3-member OR group leaves the
remaining two rendering as one parenthesized pair. -/
theorem RemoveFilter_spec (name : GoStr) (fs : List M.Filter) :
    ((M.removeFilter name fs).1.map M.Filter.Name
       = (fs.filter (fun f => f.Name ≠ name)).map M.Filter.Name)
    ∧ ((M.removeFilter name fs).2 = none ↔ ∃ f ∈ fs, f.Name = name)
    ∧ (∀ fs1 v fs2, fs = fs1 ++ v :: fs2 → v.Name = name →
        (∀ f ∈ fs1, f.Name ≠ name) → (∀ f ∈ fs2, f.Name ≠ name) →
        (M.removeFilter name fs).1 =
          if v.OR = StartOR then fs1 ++ repairHeadList fs2
          else if v.OR = EndOR then repairLastList fs1 ++ fs2
          else fs1 ++ fs2)
    ∧ M.whereList (M.removeFilter "test1".data
        [⟨"test1".data, "test1".data, EQ, vStr "test10".data, StartOR⟩,
         ⟨"test2".data, "test2".data, EQ, vStr "test10".data, InOR⟩,
         ⟨"test3".data, "test3".data, EQ, vStr "test10".data, EndOR⟩]).1
      = "(test2 = ? OR test3 = ?)".data := by
  refine ⟨?_, ?_, ?_, ?_⟩
  · unfold M.removeFilter
    simpa using removeFilterGo_names name [] fs false
  · have hfound := removeFilterGo_found name [] fs false
    unfold M.removeFilter
    rcases hE : M.removeFilterGo name [] fs false with ⟨res, fnd⟩
    rw [hE] at hfound
    simp only [Bool.false_or] at hfound
    subst hfound
    cases hany : fs.any (fun f => f.Name = name) with
    | true =>
      simp only [hany]
      rcases List.any_eq_true.mp hany with ⟨f, hf, he⟩
      simp only [decide_eq_true_eq] at he
      simp
      exact ⟨f, hf, he⟩
    | false =>
      simp only [hany]
      simp
      intro f hf
      have := List.any_eq_false.mp hany f hf
      simpa using this
  · intro fs1 v fs2 heq hv h1 h2
    subst heq
    rw [removeFilter_single name fs1 fs2 v hv h1 h2]
  · have h := removeFilter_single "test1".data []
      [⟨"test2".data, "test2".data, EQ, vStr "test10".data, InOR⟩,
       ⟨"test3".data, "test3".data, EQ, vStr "test10".data, EndOR⟩]
      ⟨"test1".data, "test1".data, EQ, vStr "test10".data, StartOR⟩
      rfl (by simp) (by decide)
    have h1 : (M.removeFilter "test1".data
        [⟨"test1".data, "test1".data, EQ, vStr "test10".data, StartOR⟩,
         ⟨"test2".data, "test2".data, EQ, vStr "test10".data, InOR⟩,
         ⟨"test3".data, "test3".data, EQ, vStr "test10".data, EndOR⟩]).1
        = [⟨"test2".data, "test2".data, EQ, vStr "test10".data, StartOR⟩,
           ⟨"test3".data, "test3".data, EQ, vStr "test10".data, EndOR⟩] := by
      rw [show ([⟨"test1".data, "test1".data, EQ, vStr "test10".data, StartOR⟩,
         ⟨"test2".data, "test2".data, EQ, vStr "test10".data, InOR⟩,
         ⟨"test3".data, "test3".data, EQ, vStr "test10".data, EndOR⟩] : List M.Filter)
         = [] ++ ⟨"test1".data, "test1".data, EQ, vStr "test10".data, StartOR⟩ ::
            [⟨"test2".data, "test2".data, EQ, vStr "test10".data, InOR⟩,
             ⟨"test3".data, "test3".data, EQ, vStr "test10".data, EndOR⟩] from rfl]
      rw [h]
      decide
    rw [h1]
    decide

/-- C2 witness: a concrete removal with repairs applied. -/
theorem RemoveFilter_spec_witness :
    (M.removeFilter "a".data
      [⟨"a".data, "a".data, EQ, vStr "1".data, StartOR⟩,
       ⟨"b".data, "b".data, EQ, vStr "2".data, EndOR⟩]).1
      = [⟨"b".data, "b".data, EQ, vStr "2".data, NoOR⟩] := by
  have h := (RemoveFilter_spec "a".data
      [⟨"a".data, "a".data, EQ, vStr "1".data, StartOR⟩,
       ⟨"b".data, "b".data, EQ, vStr "2".data, EndOR⟩]).2.2.1
    [] ⟨"a".data, "a".data, EQ, vStr "1".data, StartOR⟩
    [⟨"b".data, "b".data, EQ, vStr "2".data, EndOR⟩]
    rfl rfl (by simp) (by decide)
  rw [h]
  decide

/-!  ## C6: validator invocation -/

theorem goValidateInts_findSome (vf : ValidationFunc) (l : List Int) :
    goValidate.goValidateInts vf l = (l.map vInt).findSome? vf := by
  induction l with
  | nil => rfl
  | cons x xs ih =>
    simp only [goValidate.goValidateInts, List.map_cons, List.findSome?]
    rcases h : vf (vInt x) with _ | e <;> simp [h, ih]

theorem goValidateStrs_findSome (vf : ValidationFunc) (l : List GoStr) :
    goValidate.goValidateStrs vf l = (l.map vStr).findSome? vf := by
  induction l with
  | nil => rfl
  | cons x xs ih =>
    simp only [goValidate.goValidateStrs, List.map_cons, List.findSome?]
    rcases h : vf (vStr x) with _ | e <;> simp [h, ih]

/-- C6 (amended): the registered validator is applied once to an int, bool or
string scalar; once per element in order for an []int or []string collection,
stopping at (and returning) the first failure — extensionally, the result is
the first failing element's error in list order; float values, scalar or
collection, have no case in the type switch and are never validated; and a
coerced filter whose validator rejects is not built (newFilter returns the
validator's error and no filter). -/
theorem validate_spec :
    (∀ (vf : ValidationFunc) (l : List Int),
        goValidate vf (vIntList l) = (l.map vInt).findSome? vf)
    ∧ (∀ (vf : ValidationFunc) (l : List GoStr),
        goValidate vf (vStrList l) = (l.map vStr).findSome? vf)
    ∧ (∀ (vf : ValidationFunc) (n : Int), goValidate vf (vInt n) = vf (vInt n))
    ∧ (∀ (vf : ValidationFunc) (b : Bool), goValidate vf (vBool b) = vf (vBool b))
    ∧ (∀ (vf : ValidationFunc) (s : GoStr), goValidate vf (vStr s) = vf (vStr s))
    ∧ (∀ (vf : ValidationFunc) (r : GoStr), goValidate vf (vFloat r) = none)
    ∧ (∀ (vf : ValidationFunc) (l : List GoStr), goValidate vf (vFloatList l) = none)
    ∧ (∀ (q : Adv.Query) (pt : GoStr → Option GoStr) (rawKey value : GoStr)
         (delim : Char) (validations : Validations) (qname : GoStr)
         (method : Method) (val : GoValue) (vf : ValidationFunc) (e : WErr),
        parseKeyFn rawKey = .ok (qname, method) →
        detectValidation qname validations = some (some vf) →
        Adv.parseValue pt method (Adv.detectType q qname) value delim = .ok val →
        isNotNull method val = false →
        goValidate vf val = some e →
        Adv.newFilter q pt rawKey value delim validations = (none, some e)) := by
  refine ⟨goValidateInts_findSome, goValidateStrs_findSome,
    fun _ _ => rfl, fun _ _ => rfl, fun _ _ => rfl, fun _ _ => rfl, fun _ _ => rfl,
    ?_⟩
  intro q pt rawKey value delim validations qname method val vf e hpk hdv hpv hnn hgv
  simp only [Adv.newFilter, hpk, hdv, hpv, hnn, hgv]
  simp

/-- C6 witness: a rejecting validator on an int scalar stops newFilter. -/
theorem validate_spec_witness :
    Adv.newFilter ⟨[("n".data, ⟨"n".data, "t".data, Adv.FieldType.fInt⟩)], []⟩
        (fun _ => none) "n".data "7".data ','
        [("n".data, some (fun _ => some (bare .NotInScope)))]
      = (none, some (bare .NotInScope)) := by
  exact validate_spec.2.2.2.2.2.2.2
    ⟨[("n".data, ⟨"n".data, "t".data, Adv.FieldType.fInt⟩)], []⟩
    (fun _ => none) "n".data "7".data ','
    [("n".data, some (fun _ => some (bare .NotInScope)))]
    "n".data EQ (vInt 7) (fun _ => some (bare .NotInScope)) (bare .NotInScope)
    (by decide) rfl (by decide) (by decide) rfl

/-- An always-rejecting validator, used to exhibit the float bypass. -/
def rejectAll : ValidationFunc := fun _ => some (bare .NotInScope)

/-- C6 counterexample: a float-typed filter is coerced successfully, a
validator is registered under its query name and rejects every value, yet
newFilter succeeds and returns a filter — the validator is never applied to
float values, contradicting the claim that every non-IS/NOT-NULL scalar
coercion passes through the registered validator exactly once. -/
theorem float_validator_bypass_cex :
    (∀ v : GoValue, rejectAll v = some (bare .NotInScope))
    ∧ (Adv.newFilter ⟨[("f".data, ⟨"f".data, "t".data, Adv.FieldType.fFloat⟩)], []⟩
        (fun _ => none) "f".data "1.5".data ','
        [("f".data, some rejectAll)]).2 = none
    ∧ (Adv.newFilter ⟨[("f".data, ⟨"f".data, "t".data, Adv.FieldType.fFloat⟩)], []⟩
        (fun _ => none) "f".data "1.5".data ','
        [("f".data, some rejectAll)]).1
      = some ⟨"f".data, "f".data, "f".data, EQ, vFloat "1.5".data, NoOR,
          ⟨"f".data, "t".data, Adv.FieldType.fFloat⟩⟩ := by
  refine ⟨fun v => rfl, by decide, by decide⟩

/-!  ## C3: OR-group parsing -/

theorem splitOnChar_ne_nil (c : Char) (s : GoStr) : splitOnChar c s ≠ [] := by
  cases s with
  | nil => simp [splitOnChar]
  | cons x xs =>
    simp only [splitOnChar]
    rcases h : splitOnChar c xs with _ | ⟨y, ys⟩
    · simp
    · by_cases hx : x = c <;> simp [hx]

theorem splitOnChar_length_two (c : Char) (s : GoStr) :
    c ∈ s ↔ 2 ≤ (splitOnChar c s).length := by
  induction s with
  | nil => simp [splitOnChar]
  | cons x xs ih =>
    simp only [splitOnChar]
    rcases h : splitOnChar c xs with _ | ⟨y, ys⟩
    · exact absurd h (splitOnChar_ne_nil c xs)
    · rw [h] at ih
      by_cases hx : x = c
      · subst hx
        simp
      · simp only [hx, if_false, ite_false]
        simp only [List.mem_cons]
        constructor
        · intro hm
          rcases hm with hm | hm
          · exact absurd hm.symm hx
          · simpa using ih.mp hm
        · intro hl
          exact Or.inr (ih.mpr (by simpa using hl))

theorem mem_of_splitOnChar_cons_cons (c : Char) (s : GoStr) (k v2 : GoStr)
    (tl : List GoStr) (h : splitOnChar c s = k :: v2 :: tl) : c ∈ s := by
  rw [splitOnChar_length_two c s, h]
  simp

theorem orloop_tail (delim : Char) (validations : Validations) (n : Nat) :
    ∀ (parts : List GoStr) (key : GoStr) (i : Nat) (acc : List M.Filter)
      (out : List M.Filter),
      i + parts.length = n → 1 ≤ i → parts ≠ [] →
      M.parseFilterORLoop delim validations false n key i parts acc = (none, out) →
      (∃ new, out = acc ++ new ∧ new.length = parts.length
        ∧ new.map (fun f => f.OR)
            = List.replicate (parts.length - 1) InOR ++ [EndOR])
      ∧ (∀ p ∈ parts, '=' ∈ p) := by
  intro parts
  induction parts with
  | nil => intro key i acc out _ _ hne _; exact absurd rfl hne
  | cons v rest ih =>
    intro key i acc out hn hi _ h
    have hi0 : i ≠ 0 := by omega
    rw [M.parseFilterORLoop] at h
    simp only [hi0, ne_eq, not_false_eq_true, if_true, ite_true] at h
    rcases hsp : splitOnChar '=' v with _ | ⟨k, tl⟩
    · exact absurd hsp (splitOnChar_ne_nil '=' v)
    · rcases tl with _ | ⟨v2, tl2⟩
      · rw [hsp] at h
        simp at h
      · rw [hsp] at h
        simp only at h
        have hmem : '=' ∈ v := mem_of_splitOnChar_cons_cons '=' v k v2 tl2 hsp
        by_cases hemp : trimSpace v2 = []
        · rw [if_pos hemp] at h
          simp at h
        · rw [if_neg hemp] at h
          rcases hnf : M.newFilter k (trimSpace v2) delim validations with e | f
          · simp only [hnf] at h
            by_cases hvnf : e = bare .ValidationNotFound
            · rw [if_pos hvnf] at h
              simp at h
            · rw [if_neg hvnf] at h
              simp at h
          · simp only [hnf] at h
            have htag : ∀ g : M.Filter,
                ({ g with OR := if i = 0 then StartOR
                    else if i = n - 1 then EndOR else InOR } : M.Filter)
                  = { g with OR := if i = n - 1 then EndOR else InOR } := by
              intro g
              simp [hi0]
            rcases rest with _ | ⟨r0, rrest⟩
            · have hlast : i = n - 1 := by simp at hn; omega
              rw [M.parseFilterORLoop] at h
              simp only [Prod.mk.injEq] at h
              obtain ⟨-, hout⟩ := h
              constructor
              · refine ⟨[{ f with OR := EndOR }], ?_, by simp, by simp⟩
                rw [← hout]
                simp [hi0, hlast]
              · intro p hp
                rcases List.mem_singleton.mp hp with rfl
                exact hmem
            · have hmid : ¬ i = n - 1 := by simp at hn; omega
              have harg1 : i + 1 + (r0 :: rrest).length = n := by
                simp only [List.length_cons] at hn ⊢
                omega
              have harg3 : (r0 :: rrest) ≠ [] := by simp
              have hrec := ih k (i + 1) _ out harg1 (by omega) harg3 h
              rcases hrec with ⟨⟨new2, hout, hlen, hmap⟩, hparts⟩
              constructor
              · refine ⟨{ f with OR := InOR } :: new2, ?_, ?_, ?_⟩
                · rw [hout]
                  simp [hi0, hmid]
                · simp [hlen]
                · simp only [List.map_cons, hmap]
                  rw [show (v :: r0 :: rrest).length - 1
                      = ((r0 :: rrest).length - 1) + 1 by simp]
                  rw [List.replicate_succ]
                  simp
              · intro p hp
                rcases List.mem_cons.mp hp with rfl | hp
                · exact hmem
                · exact hparts p hp


/-- The session of the OR-group example: default delimiters, unknown filters
rejected, one int-typed filter name registered. -/
def orExampleQuery : M.Query :=
  { query := [], validations := [("id:int".data, none)], Fields := [],
    Offset := 0, Limit := 0, Sorts := [], Filters := [], delimiterIN := ',',
    delimiterOR := '|', ignoreUnknown := false }

/-- C3: on a session that rejects unknown filters, a parameter value
containing the OR delimiter is split into parts; a successful parse appends
one filter per part in order, tagged StartOR for the first, EndOR for the
last and InOR for every interior part, and success requires every part after
the first to carry its own key=value pair; the example "id[gte]=1|id[lte]=4"
parses and renders as the single parenthesized disjunction
"(id >= ? OR id <= ?)". -/
theorem parseFilter_or_group :
    (∀ (q : M.Query) (key value : GoStr) (q2 : M.Query),
      q.ignoreUnknown = false →
      q.delimiterOR ∈ trimSpace value →
      M.parseFilter q key value = (none, q2) →
      ∃ new, q2.Filters = q.Filters ++ new
        ∧ new.length = (splitOnChar q.delimiterOR (trimSpace value)).length
        ∧ new.map (fun f => f.OR)
            = StartOR :: (List.replicate
                ((splitOnChar q.delimiterOR (trimSpace value)).length - 2) InOR
              ++ [EndOR])
        ∧ ∀ p ∈ (splitOnChar q.delimiterOR (trimSpace value)).tail, '=' ∈ p)
    ∧ (M.parseFilter orExampleQuery "id[gte]".data "1|id[lte]=4".data).1 = none
    ∧ M.whereList (M.parseFilter orExampleQuery "id[gte]".data
        "1|id[lte]=4".data).2.Filters = "(id >= ? OR id <= ?)".data := by
  refine ⟨?_, by decide, by decide⟩
  intro q key value q2 hig hdel h
  have hne : trimSpace value ≠ [] := List.ne_nil_of_mem hdel
  rw [M.parseFilter] at h
  rw [if_neg hne, if_pos hdel] at h
  rcases hp : splitOnChar q.delimiterOR (trimSpace value) with _ | ⟨p0, rest⟩
  · exact absurd hp (splitOnChar_ne_nil _ _)
  have hrest : rest ≠ [] := by
    have := (splitOnChar_length_two q.delimiterOR (trimSpace value)).mp hdel
    rw [hp] at this
    simp at this
    intro hr
    rw [hr] at this
    simp at this
  rw [hp] at h
  rcases hloopAll : M.parseFilterORLoop q.delimiterIN q.validations q.ignoreUnknown
      (p0 :: rest).length key 0 (p0 :: rest) [] with ⟨e, newFs⟩
  simp only [hloopAll, Prod.mk.injEq] at h
  obtain ⟨he, hq2⟩ := h
  subst he
  rw [hig] at hloopAll
  rw [M.parseFilterORLoop.eq_def] at hloopAll
  norm_num at hloopAll
  by_cases hemp : trimSpace p0 = []
  · rw [if_pos hemp] at hloopAll
    simp at hloopAll
  rw [if_neg hemp] at hloopAll
  rcases hnf : M.newFilter key (trimSpace p0) q.delimiterIN q.validations with e2 | f
  · simp only [hnf] at hloopAll
    by_cases hvnf : e2 = bare .ValidationNotFound
    · rw [if_pos hvnf] at hloopAll
      simp at hloopAll
    · rw [if_neg hvnf] at hloopAll
      simp at hloopAll
  · simp only [hnf] at hloopAll
    rcases hrest2 : rest with _ | ⟨r0, rrest⟩
    · exact absurd hrest2 hrest
    subst hrest2
    have hres := orloop_tail q.delimiterIN q.validations (p0 :: r0 :: rrest).length
      (r0 :: rrest) key (0 + 1) _ newFs (by simp; omega) (by omega) (by simp) hloopAll
    rcases hres with ⟨⟨new2, hout, hlen, hmap⟩, hparts⟩
    refine ⟨{ f with OR := StartOR } :: new2, ?_, ?_, ?_, ?_⟩
    · rw [← hq2]
      simp only [hout]
      simp
    · simp [hlen]
    · simp [hmap]
    · intro p hpmem
      exact hparts p (by simpa using hpmem)

/-- C3 witness: the general OR-group shape applied to the concrete example. -/
theorem parseFilter_or_group_witness :
    ∃ new, (M.parseFilter orExampleQuery "id[gte]".data "1|id[lte]=4".data).2.Filters
        = orExampleQuery.Filters ++ new
      ∧ new.length = (splitOnChar orExampleQuery.delimiterOR
          (trimSpace "1|id[lte]=4".data)).length
      ∧ new.map (fun f => f.OR)
          = StartOR :: (List.replicate ((splitOnChar orExampleQuery.delimiterOR
              (trimSpace "1|id[lte]=4".data)).length - 2) InOR ++ [EndOR])
      ∧ ∀ p ∈ (splitOnChar orExampleQuery.delimiterOR
          (trimSpace "1|id[lte]=4".data)).tail, '=' ∈ p := by
  have h1 : (M.parseFilter orExampleQuery "id[gte]".data "1|id[lte]=4".data).1
      = none := by decide
  have hres : M.parseFilter orExampleQuery "id[gte]".data "1|id[lte]=4".data
      = (none, (M.parseFilter orExampleQuery "id[gte]".data "1|id[lte]=4".data).2) := by
    rw [← h1]
  exact parseFilter_or_group.1 orExampleQuery "id[gte]".data "1|id[lte]=4".data
    _ rfl (by decide) hres

/-!  ## C1: rendering with failing filters -/

theorem lookup_prop {α β : Type} [BEq α] (P : β → Prop) (l : List (α × β))
    (hl : ∀ p ∈ l, P p.2) {k : α} {v : β} (h : List.lookup k l = some v) : P v := by
  induction l with
  | nil => simp [List.lookup] at h
  | cons p es ih =>
    rcases p with ⟨a, b⟩
    rw [List.lookup] at h
    by_cases hak : (k == a) = true
    · rw [hak] at h
      simp at h
      subst h
      exact hl (a, b) (List.mem_cons_self _ _)
    · rw [Bool.eq_false_iff.mpr hak] at h
      simp at h
      exact ih (fun q hq => hl q (List.mem_cons_of_mem _ hq)) h

theorem translate_counts (m : Method) :
    (translate m).count '(' = 0 ∧ (translate m).count ')' = 0 := by
  unfold translate
  rcases hl : List.lookup m translateMethods with _ | v
  · simp
  · have := lookup_prop (fun w => w.count '(' = 0 ∧ w.count ')' = 0)
      translateMethods (by decide) hl
    simpa using this

theorem pb_append (a b : GoStr) : pb (a ++ b) = pb a + pb b := by
  simp only [pb, List.count_append]
  push_cast
  ring

theorem count_replaceFirst (pat repl : GoStr) (c : Char) (hc1 : c ∉ pat)
    (hc2 : c ∉ repl) : ∀ s : GoStr, (replaceFirstOcc pat repl s).count c = s.count c := by
  intro s
  induction s with
  | nil =>
    rw [replaceFirstOcc]
    split
    · simp [List.count_eq_zero.mpr hc2]
    · rfl
  | cons x xs ih =>
    by_cases hp : pat.isPrefixOf (x :: xs) = true
    · rw [replaceFirstOcc, if_pos hp]
      obtain ⟨t, ht⟩ := List.isPrefixOf_iff_prefix.mp hp
      rw [← ht, List.drop_left]
      simp [List.count_append, List.count_eq_zero.mpr hc1, List.count_eq_zero.mpr hc2]
    · rw [replaceFirstOcc, if_neg hp]
      simp [List.count_cons, ih]

theorem placeholders_counts (c : Char) (hq : c ≠ '?') (hcm : c ≠ ',')
    (hsp : c ≠ ' ') : ∀ n, (placeholders n).count c = 0 := by
  have aux : ∀ k, (placeholders (k + 1)).count c = 0 := by
    intro k
    induction k with
    | zero =>
      have hnotin : c ∉ placeholders 1 := by
        intro hmem
        simp [placeholders] at hmem
        exact hq hmem
      exact List.count_eq_zero.mpr hnotin
    | succ j ih =>
      show (placeholders (j + 2)).count c = 0
      have hnotin : c ∉ "?, ".data := by
        intro hmem
        simp at hmem
        rcases hmem with h | h | h
        · exact hq h
        · exact hcm h
        · exact hsp h
      rw [placeholders, List.count_append, ih, List.count_eq_zero.mpr hnotin]
  intro n
  cases n with
  | zero => rfl
  | succ k => exact aux k

theorem whereText_pb (f : M.Filter) (s : GoStr) (h : M.Filter.Where f = .ok s)
    (h1 : '(' ∉ f.Name) (h2 : ')' ∉ f.Name) : pb s = 0 := by
  have hn1 : f.Name.count '(' = 0 := List.count_eq_zero.mpr h1
  have hn2 : f.Name.count ')' = 0 := List.count_eq_zero.mpr h2
  have htm := translate_counts f.Method
  rw [M.Filter.Where] at h
  by_cases c1 : f.Method ∈ [EQ, NE, GT, LT, GTE, LTE, LIKE, ILIKE, NLIKE, NILIKE]
  · rw [if_pos c1] at h
    obtain rfl : _ = s := by injection h
    simp [pb, List.count_append, hn1, hn2, htm.1, htm.2]
  rw [if_neg c1] at h
  by_cases c2 : f.Method = IS ∨ f.Method = NOT
  · rw [if_pos c2] at h
    by_cases c3 : f.Value = vStr NULLs
    · rw [if_pos c3] at h
      obtain rfl : _ = s := by injection h
      simp [pb, List.count_append, hn1, hn2, htm.1, htm.2]
    · rw [if_neg c3] at h
      exact absurd h (by simp)
  rw [if_neg c2] at h
  by_cases c4 : f.Method = IN ∨ f.Method = NIN
  · rw [if_pos c4] at h
    obtain rfl : _ = s := by injection h
    rw [inGo]
    rcases hv : collectionElems f.Value with _ | l
    · simp only []
      simp [pb, List.count_append, hn1, hn2, htm.1, htm.2]
    · simp only []
      have r1 := count_replaceFirst "?".data (placeholders l.length) '('
        (by decide) (List.count_eq_zero.mp
          (placeholders_counts '(' (by decide) (by decide) (by decide) l.length))
      have r2 := count_replaceFirst "?".data (placeholders l.length) ')'
        (by decide) (List.count_eq_zero.mp
          (placeholders_counts ')' (by decide) (by decide) (by decide) l.length))
      simp only [pb, r1, r2]
      simp [List.count_append, hn1, hn2, htm.1, htm.2]
  rw [if_neg c4] at h
  by_cases c5 : f.Method = raw
  · rw [if_pos c5] at h
    obtain rfl : _ = s := by injection h
    simp [pb, hn1, hn2]
  · rw [if_neg c5] at h
    exact absurd h (by simp)

theorem whereAux_balance :
    ∀ (fs : List M.Filter) (acc : GoStr) (i : Nat) (b : Bool),
      wfORAux b (fs.map (fun f => f.OR)) = true →
      (∀ f ∈ fs, '(' ∉ f.Name ∧ ')' ∉ f.Name) →
      (∀ f ∈ fs, (f.OR = StartOR ∨ f.OR = EndOR) → (M.Filter.Where f).isOk = true) →
      pb (M.whereAux acc i fs) = pb acc + (if b then -1 else 0) := by
  intro fs
  induction fs with
  | nil =>
    intro acc i b hwf _ _
    cases b
    · simp [M.whereAux]
    · simp [wfORAux] at hwf
  | cons f rest ih =>
    intro acc i b hwf hnm hok
    have hnmf := hnm f (List.mem_cons_self f rest)
    have hnmr : ∀ g ∈ rest, '(' ∉ g.Name ∧ ')' ∉ g.Name :=
      fun g hg => hnm g (List.mem_cons_of_mem f hg)
    have hokr : ∀ g ∈ rest, (g.OR = StartOR ∨ g.OR = EndOR) →
        (M.Filter.Where g).isOk = true :=
      fun g hg => hok g (List.mem_cons_of_mem f hg)
    rw [M.whereAux]
    rcases hor : f.OR with _ | _ | _ | _
    all_goals simp only [List.map_cons, hor] at hwf
    · -- NoOR: only legal outside a group
      cases b with
      | true => simp [wfORAux] at hwf
      | false =>
        rw [wfORAux] at hwf
        rcases hw : M.Filter.Where f with e | a
        · simpa using ih acc (i + 1) false hwf hnmr hokr
        · rw [ih _ (i + 1) false hwf hnmr hokr]
          have hpa : pb a = 0 := whereText_pb f a hw hnmf.1 hnmf.2
          simp only [hor]
          rw [pb_append, pb_append, pb_append, hpa]
          simp [pb]
          split <;> decide
    · -- StartOR
      cases b with
      | true => simp [wfORAux] at hwf
      | false =>
        rw [wfORAux] at hwf
        have hokf := hok f (List.mem_cons_self f rest) (Or.inl hor)
        rcases hw : M.Filter.Where f with e | a
        · rw [hw] at hokf
          simp [Except.isOk, Except.toBool] at hokf
        · rw [ih _ (i + 1) true hwf hnmr hokr]
          have hpa : pb a = 0 := whereText_pb f a hw hnmf.1 hnmf.2
          simp only [hor]
          rw [pb_append, pb_append, pb_append, hpa]
          simp [pb]
          split
          · have e1 : List.count '(' ['('] = 1 := by decide
            have e2 : List.count ')' ['('] = 0 := by decide
            rw [e1, e2]
            omega
          · have e1 : List.count '(' [' ', 'A', 'N', 'D', ' ', '('] = 1 := by decide
            have e2 : List.count ')' [' ', 'A', 'N', 'D', ' ', '('] = 0 := by decide
            rw [e1, e2]
            omega
    · -- InOR: only legal inside a group
      cases b with
      | false => simp [wfORAux] at hwf
      | true =>
        rw [wfORAux] at hwf
        rcases hw : M.Filter.Where f with e | a
        · simpa using ih acc (i + 1) true hwf hnmr hokr
        · rw [ih _ (i + 1) true hwf hnmr hokr]
          have hpa : pb a = 0 := whereText_pb f a hw hnmf.1 hnmf.2
          simp only [hor]
          rw [pb_append, pb_append, pb_append, hpa]
          have hpre : pb " OR ".data = 0 := by decide
          simp [hpre, pb]
    · -- EndOR
      cases b with
      | false => simp [wfORAux] at hwf
      | true =>
        rw [wfORAux] at hwf
        have hokf := hok f (List.mem_cons_self f rest) (Or.inr hor)
        rcases hw : M.Filter.Where f with e | a
        · rw [hw] at hokf
          simp [Except.isOk, Except.toBool] at hokf
        · rw [ih _ (i + 1) false hwf hnmr hokr]
          have hpa : pb a = 0 := whereText_pb f a hw hnmf.1 hnmf.2
          simp only [hor]
          rw [pb_append, pb_append, pb_append, hpa]
          have hpre : pb " OR ".data = 0 := by decide
          have hsuf : pb ")".data = -1 := by decide
          simp [pb_append, hpre, hsuf, pb]

/-- C1 (amended): a filter whose own Where() errors contributes neither
prefix nor expression text (the loop step is a no-op for it), and when every
failing filter holds NoOR or InOR state the rendered expression keeps
balanced parentheses for well-formed OR sequences; a failing StartOR or
EndOR filter, however, loses its group's opening or closing parenthesis (see
the counterexample). -/
theorem where_skip_balance (fs : List M.Filter)
    (hwf : wfORAux false (fs.map (fun f => f.OR)) = true)
    (hnames : ∀ f ∈ fs, '(' ∉ f.Name ∧ ')' ∉ f.Name)
    (hfail : ∀ f ∈ fs, (M.Filter.Where f).isOk = false →
        f.OR = NoOR ∨ f.OR = InOR) :
    ((M.whereList fs).count '(' = (M.whereList fs).count ')')
    ∧ (∀ (acc : GoStr) (i : Nat) (g : M.Filter) (rest : List M.Filter)
         (e : WErr), M.Filter.Where g = .error e →
        M.whereAux acc i (g :: rest) = M.whereAux acc (i + 1) rest) := by
  constructor
  · have hok : ∀ f ∈ fs, (f.OR = StartOR ∨ f.OR = EndOR) →
        (M.Filter.Where f).isOk = true := by
      intro f hf hor
      by_contra hc
      have := hfail f hf (Bool.eq_false_iff.mpr hc)
      rcases hor with h | h <;> rcases this with h2 | h2 <;> rw [h] at h2 <;>
        exact absurd h2 (by decide)
    have := whereAux_balance fs [] 0 false hwf hnames hok
    simp only [if_neg (Bool.false_ne_true ∘ Eq.symm ∘ Eq.symm)] at this
    have hz : pb (M.whereList fs) = 0 := by
      unfold M.whereList
      simpa [pb] using this
    unfold pb at hz
    omega
  · intro acc i g rest e hw
    rw [M.whereAux, hw]

/-- C1 witness: a well-formed group whose failing member is interior (InOR)
still renders with balanced parentheses. -/
theorem where_skip_balance_witness :
    ((M.whereList
        [⟨"a".data, "a".data, EQ, vStr "1".data, StartOR⟩,
         ⟨"b".data, "b".data, IS, vStr "x".data, InOR⟩,
         ⟨"c".data, "c".data, EQ, vStr "2".data, EndOR⟩]).count '('
      = (M.whereList
        [⟨"a".data, "a".data, EQ, vStr "1".data, StartOR⟩,
         ⟨"b".data, "b".data, IS, vStr "x".data, InOR⟩,
         ⟨"c".data, "c".data, EQ, vStr "2".data, EndOR⟩]).count ')') := by
  exact (where_skip_balance
    [⟨"a".data, "a".data, EQ, vStr "1".data, StartOR⟩,
     ⟨"b".data, "b".data, IS, vStr "x".data, InOR⟩,
     ⟨"c".data, "c".data, EQ, vStr "2".data, EndOR⟩]
    (by decide) (by decide) (by decide)).1

/-- C1 counterexample: a StartOR filter whose Where() fails (IS with a
non-NULL value) is skipped together with its opening parenthesis, while the
EndOR partner still emits the closing one — the rendered expression is
" OR id = ?)", with unmatched parentheses, refuting the claim that the OR
parenthesization of the remaining filters stays balanced. -/
theorem where_skipped_paren_cex :
    M.whereList [⟨"k".data, "id".data, IS, vStr "x".data, StartOR⟩,
                 ⟨"k2".data, "id".data, EQ, vStr "1".data, EndOR⟩]
      = " OR id = ?)".data
    ∧ (M.whereList [⟨"k".data, "id".data, IS, vStr "x".data, StartOR⟩,
                 ⟨"k2".data, "id".data, EQ, vStr "1".data, EndOR⟩]).count '(' = 0
    ∧ (M.whereList [⟨"k".data, "id".data, IS, vStr "x".data, StartOR⟩,
                 ⟨"k2".data, "id".data, EQ, vStr "1".data, EndOR⟩]).count ')' = 1 := by
  refine ⟨by decide, by decide, by decide⟩

/-!  ## C9: Clone independence -/

theorem readF_append (st : H.Store) (rec : M.Filter) (a : Nat)
    (h : a < st.length) : H.readF (st ++ [rec]) a = H.readF st a := by
  unfold H.readF
  rw [List.getD_append _ _ _ _ h]

/-- C9 (amended): Clone copies the Filters pointer slice, so the clone starts
with the same filter list and appending a filter through the clone allocates a
fresh record and leaves the original's rendered Where unchanged; but the
pointed-to Filter records themselves are shared, so a mutating operation
through the clone that writes the shared records (such as RemoveFilter's
OR-state repair) does change the original's observable state (see the
counterexample). -/
theorem Clone_frame (st : H.Store) (q : H.QueryH) (name : GoStr) (m : Method)
    (v : GoValue) (h : ∀ a ∈ q.Filters, a < st.length) :
    (H.clone q).Filters = q.Filters
    ∧ H.Where (H.addFilter st (H.clone q) name m v).1 q = H.Where st q := by
  refine ⟨rfl, ?_⟩
  unfold H.Where H.addFilter
  simp only []
  congr 1
  exact List.map_congr_left (fun a ha => readF_append st _ a (h a ha))

/-- C9 witness: appending through a clone of a one-filter session leaves the
original's rendered Where intact. -/
theorem Clone_frame_witness :
    (H.clone ⟨[0]⟩).Filters = [0]
    ∧ H.Where (H.addFilter [⟨"a".data, "a".data, EQ, vStr "1".data, NoOR⟩]
        (H.clone ⟨[0]⟩) "b".data EQ (vStr "2".data)).1 ⟨[0]⟩
      = H.Where [⟨"a".data, "a".data, EQ, vStr "1".data, NoOR⟩] ⟨[0]⟩ :=
  Clone_frame [⟨"a".data, "a".data, EQ, vStr "1".data, NoOR⟩] ⟨[0]⟩
    "b".data EQ (vStr "2".data) (by decide)

/-- C9 counterexample: the Filter records are shared between a session and
its clone.  Removing the StartOR filter through the clone repairs the shared
EndOR record to NoOR, and the original session's rendered Where changes from
"(a = ? OR b = ?)" to the corrupted "(a = ? AND b = ?" — refuting the claim
that mutations through the clone leave the original's observable state
unchanged. -/
theorem Clone_shared_filters_cex :
    H.Where [⟨"a".data, "a".data, EQ, vStr "1".data, StartOR⟩,
             ⟨"b".data, "b".data, EQ, vStr "2".data, EndOR⟩] ⟨[0, 1]⟩
      = "(a = ? OR b = ?)".data
    ∧ H.Where (H.removeFilter "a".data
        [⟨"a".data, "a".data, EQ, vStr "1".data, StartOR⟩,
         ⟨"b".data, "b".data, EQ, vStr "2".data, EndOR⟩]
        (H.clone ⟨[0, 1]⟩)).1 ⟨[0, 1]⟩
      = "(a = ? AND b = ?".data := by
  refine ⟨by decide, by decide⟩

/-!  ## C5: first-failure semantics of Parse -/

theorem orloop_err_wrapped (delim : Char) (vals : Validations) (ig : Bool)
    (n : Nat) :
    ∀ (parts : List GoStr) (key : GoStr) (i : Nat) (acc : List M.Filter)
      (e : WErr),
      (M.parseFilterORLoop delim vals ig n key i parts acc).1 = some e →
      e.msgs ≠ [] := by
  intro parts
  induction parts with
  | nil =>
    intro key i acc e h
    simp [M.parseFilterORLoop] at h
  | cons v rest ih =>
    intro key i acc e h
    rw [M.parseFilterORLoop] at h
    split at h
    · rename_i kv0 er heq
      have he := Option.some.inj h
      subst he
      split at heq
      · split at heq
        · exact absurd heq (by simp)
        · injection heq with h2
          rw [← h2]
          simp [wrapE]
      · exact absurd heq (by simp)
    · rename_i kv0 k2 v2 heq
      simp only [] at h
      split at h
      · have he := Option.some.inj h
        rw [← he]
        simp [wrapE]
      · split at h
        · split at h
          · split at h
            · exact ih _ _ _ _ h
            · have he := Option.some.inj h
              rw [← he]
              simp [wrapE]
          · have he := Option.some.inj h
            rw [← he]
            simp [wrapE]
        · exact ih _ _ _ _ h

theorem parseFilter_err_wrapped (q : M.Query) (key value : GoStr) (e : WErr)
    (h : (M.parseFilter q key value).1 = some e) : e.msgs ≠ [] := by
  rw [M.parseFilter] at h
  simp only [] at h
  split at h
  · have he := Option.some.inj h
    rw [← he]
    simp [wrapE]
  · split at h
    · exact orloop_err_wrapped _ _ _ _ _ key 0 [] e h
    · split at h
      · split at h
        · split at h
          · simp at h
          · have he := Option.some.inj h
            rw [← he]
            simp [wrapE]
        · have he := Option.some.inj h
          rw [← he]
          simp [wrapE]
      · simp at h

theorem filterValsLoop_err_wrapped (key : GoStr) :
    ∀ (vals : List GoStr) (q : M.Query) (e : WErr),
      (M.filterValsLoop q key vals).1 = some e → e.msgs ≠ [] := by
  intro vals
  induction vals with
  | nil =>
    intro q e h
    simp [M.filterValsLoop] at h
  | cons v rest ih =>
    intro q e h
    rw [M.filterValsLoop] at h
    split at h
    · rename_i e2 q2 hpair
      have he := Option.some.inj h
      rw [← he]
      exact parseFilter_err_wrapped q key v e2 (by rw [hpair])
    · exact ih _ _ h

theorem processEntry_err_wrapped (q : M.Query) (required : List GoStr)
    (key : GoStr) (vals : List GoStr) (e : WErr)
    (h : (M.processEntry q required key vals).1 = some e) : e.msgs ≠ [] := by
  rw [M.processEntry] at h
  simp only [] at h
  split at h
  · rcases hp : (M.parseFields q vals (M.lookupVF q.validations (M.stripIn (goToLower key)))).1 with _ | e2
    · rw [hp] at h
      simp at h
    · rw [hp] at h
      simp only [Option.map_some'] at h
      have he := Option.some.inj h
      rw [← he]
      simp [wrapE]
  · split at h
    · rcases hp : (M.parseOffset q vals (M.lookupVF q.validations (M.stripIn (goToLower key)))).1 with _ | e2
      · rw [hp] at h
        simp at h
      · rw [hp] at h
        simp only [Option.map_some'] at h
        have he := Option.some.inj h
        rw [← he]
        simp [wrapE]
    · split at h
      · rcases hp : (M.parseLimit q vals (M.lookupVF q.validations (M.stripIn (goToLower key)))).1 with _ | e2
        · rw [hp] at h
          simp at h
        · rw [hp] at h
          simp only [Option.map_some'] at h
          have he := Option.some.inj h
          rw [← he]
          simp [wrapE]
      · split at h
        · rcases hp : (M.parseSort q vals (M.lookupVF q.validations (M.stripIn (goToLower key)))).1 with _ | e2
          · rw [hp] at h
            simp at h
          · rw [hp] at h
            simp only [Option.map_some'] at h
            have he := Option.some.inj h
            rw [← he]
            simp [wrapE]
        · split at h
          · have he := Option.some.inj h
            rw [← he]
            simp [wrapE]
          · exact filterValsLoop_err_wrapped key vals q e h

theorem parseEntries_err_wrapped :
    ∀ (entries : List (GoStr × List GoStr)) (q : M.Query) (req : List GoStr)
      (e : WErr) (qf : M.Query) (reqf : List GoStr),
      M.parseEntries q req entries = (some e, qf, reqf) → e.msgs ≠ [] := by
  intro entries
  induction entries with
  | nil =>
    intro q req e qf reqf h
    simp [M.parseEntries] at h
  | cons p rest ih =>
    intro q req e qf reqf h
    rcases p with ⟨key, vals⟩
    rw [M.parseEntries] at h
    split at h
    · rename_i e2 q2 req2 hpair
      have he : e2 = e := by
        have := congrArg Prod.fst h
        simpa using this
      rw [← he]
      exact processEntry_err_wrapped q req key vals e2 (by rw [hpair])
    · exact ih _ _ _ _ _ h

theorem parseEntries_append (q : M.Query) (req : List GoStr)
    (xs ys : List (GoStr × List GoStr)) :
    M.parseEntries q req (xs ++ ys) =
      match M.parseEntries q req xs with
      | (some e, q2, req2) => (some e, q2, req2)
      | (none, q2, req2) => M.parseEntries q2 req2 ys := by
  induction xs generalizing q req with
  | nil => simp [M.parseEntries]
  | cons p rest ih =>
    rcases p with ⟨key, vals⟩
    rw [List.cons_append, M.parseEntries, M.parseEntries]
    split
    · rfl
    · exact ih _ _

theorem parse_err_wrapped (q : M.Query) (e : WErr) (qf : M.Query)
    (h : M.parse q = (some e, qf)) : e.msgs ≠ [] := by
  rw [M.parse] at h
  simp only [] at h
  split at h
  · rename_i e2 qf2 req2 hpair
    have he : e2 = e := by
      have := congrArg Prod.fst h
      simpa using this
    rw [← he]
    exact parseEntries_err_wrapped _ _ _ e2 qf2 req2 hpair
  · rename_i qf2 reqf2 hpair
    split at h
    · rename_i n hn
      have he : wrapE n (bare Err.Required) = e := by
        have := congrArg Prod.fst h
        simpa using this
      rw [← he]
      simp [wrapE]
    · simp at h

theorem parse_clears_filters (q : M.Query) (fs : List M.Filter) :
    M.parse { q with Filters := fs } = M.parse q := rfl

/-- C5 (amended): when Parse returns an error the error is a single key
failure wrapped with the offending name; Parse first clears previously
parsed filters, so re-invoking it on corrected input is insensitive to the
filter list left behind; and the entry loop stops at the first failing key,
keeping the query state accumulated before it.  The filter list after a
failure is NOT limited to the keys fully processed before the failing key,
though: filters built from earlier parts of the failing key itself (earlier
values of the key, or the leading members of an OR group whose later part
fails) have already been appended and remain (see the counterexample). -/
theorem parse_spec (q : M.Query) :
    (∀ (e : WErr) (qf : M.Query), M.parse q = (some e, qf) → e.msgs ≠ [])
    ∧ (∀ fs : List M.Filter, M.parse { q with Filters := fs } = M.parse q)
    ∧ (∀ (req : List GoStr) (xs ys : List (GoStr × List GoStr)),
        M.parseEntries q req (xs ++ ys) =
          match M.parseEntries q req xs with
          | (some e, q2, req2) => (some e, q2, req2)
          | (none, q2, req2) => M.parseEntries q2 req2 ys) :=
  ⟨fun e qf h => parse_err_wrapped q e qf h,
   fun fs => parse_clears_filters q fs,
   fun req xs ys => parseEntries_append q req xs ys⟩

/-- C5 witness: a bad int value fails wrapped with its key "id", and a stale
filter list does not change the outcome of a re-parse. -/
theorem parse_spec_witness :
    ((⟨["id".data], Err.BadFormat⟩ : WErr).msgs ≠ [])
    ∧ M.parse { M.NewQ with
          query := [("id".data, ["zz".data])],
          validations := [("id:int".data, none)],
          Filters := [⟨"x".data, "x".data, EQ, vStr "1".data, NoOR⟩] }
      = M.parse { M.NewQ with
          query := [("id".data, ["zz".data])],
          validations := [("id:int".data, none)] } :=
  ⟨(parse_spec { M.NewQ with
        query := [("id".data, ["zz".data])],
        validations := [("id:int".data, none)] }).1
      ⟨["id".data], Err.BadFormat⟩
      { M.NewQ with
        query := [("id".data, ["zz".data])],
        validations := [("id:int".data, none)] }
      (by rfl),
   (parse_spec { M.NewQ with
        query := [("id".data, ["zz".data])],
        validations := [("id:int".data, none)] }).2.1
      [⟨"x".data, "x".data, EQ, vStr "1".data, NoOR⟩]⟩

/-- C5 counterexample: the key "id" with value "1|zz" fails (the second OR
part has no key=value pair), yet the filter built from the first OR part of
the failing key itself has already been appended and remains in the session
— refuting "no filter derived from the failing key itself". -/
theorem parse_partial_filters_cex :
    (M.parse { M.NewQ with
        query := [("id".data, ["1|zz".data])],
        validations := [("id:int".data, none)] }).1
      = some (wrapE "id".data (bare Err.BadFormat))
    ∧ ((M.parse { M.NewQ with
        query := [("id".data, ["1|zz".data])],
        validations := [("id:int".data, none)] }).2.Filters.map
          (fun f => (f.Key, f.OR)))
      = [("id".data, StartOR)] := by
  refine ⟨by decide, by decide⟩

/-!  ## C8: idempotence of name resolution -/



theorem firstSeg_cons (c x : Char) (s : GoStr) :
    firstSeg c (x :: s) = if x = c then [] else x :: firstSeg c s := by
  rcases h : splitOnChar c s with _ | ⟨y, ys⟩
  · exact absurd h (splitOnChar_ne_nil c s)
  · simp only [firstSeg, splitOnChar, h]
    by_cases hx : x = c
    · simp [hx]
    · simp [hx]

theorem firstSeg_append_left (c : Char) (p : GoStr) (t : GoStr) (h : c ∉ p) :
    firstSeg c (p ++ t) = p ++ firstSeg c t := by
  induction p with
  | nil => simp
  | cons x p2 ih =>
    have hx : ¬ x = c := fun hx => h (hx ▸ List.mem_cons_self x p2)
    have hm : c ∉ p2 := fun hm => h (List.mem_cons_of_mem x hm)
    rw [List.cons_append, firstSeg_cons, if_neg hx, ih hm, List.cons_append]

theorem firstSeg_append_sep (c : Char) (a b : GoStr) :
    firstSeg c (a ++ c :: b) = firstSeg c a := by
  induction a with
  | nil =>
    simp only [List.nil_append, firstSeg_cons, if_pos rfl]
    rfl
  | cons x a2 ih =>
    rw [List.cons_append, firstSeg_cons, firstSeg_cons, ih]

theorem splitOnChar_singleton (c : Char) :
    ∀ (s x : GoStr), splitOnChar c s = [x] → x = s := by
  intro s
  induction s with
  | nil =>
    intro x h
    simp [splitOnChar] at h
    exact h
  | cons y ys ih =>
    intro x h
    rcases hin : splitOnChar c ys with _ | ⟨z, zs⟩
    · exact absurd hin (splitOnChar_ne_nil c ys)
    · simp only [splitOnChar, hin] at h
      by_cases hy : y = c
      · rw [if_pos hy] at h
        simp at h
      · rw [if_neg hy] at h
        rcases List.cons.inj h with ⟨hx, hzs⟩
        rw [hzs] at hin
        rw [← hx, ih z hin]

theorem lookup_none_of_paren {qdbm : P7.QueryDbMap}
    (hkeys : ∀ p ∈ qdbm, '(' ∉ p.1) {s : GoStr} (hs : '(' ∈ s) :
    qdbm.lookup s = none := by
  induction qdbm with
  | nil => rfl
  | cons p rest ih =>
    rcases p with ⟨k, v⟩
    rw [List.lookup]
    by_cases hk : (s == k) = true
    · have hks : s = k := by simpa using hk
      rw [hk]
      exact absurd (hks ▸ hs) (hkeys (k, v) (List.mem_cons_self _ _))
    · rw [Bool.eq_false_iff.mpr hk]
      exact ih (fun p hp => hkeys p (List.mem_cons_of_mem _ hp))

theorem detectType_paren {qdbm : P7.QueryDbMap}
    (hkeys : ∀ p ∈ qdbm, '(' ∉ p.1) {s : GoStr} (hs : '(' ∈ s) :
    P7.detectType s qdbm = "string".data := by
  rw [P7.detectType, lookup_none_of_paren hkeys hs]

theorem jsonHelperCast_suffix (T e : GoStr) :
    ∃ suf, P7.jsonHelperCast T e = e ++ suf := by
  rw [P7.jsonHelperCast]
  split
  · exact ⟨[], by simp⟩
  split
  · exact ⟨_, rfl⟩
  split
  · exact ⟨_, rfl⟩
  split
  · exact ⟨_, rfl⟩
  · exact ⟨"::text::".data ++ T, by rw [List.append_assoc]⟩

theorem jsonHelperGo_J :
    ∀ (r : List GoStr) (T acc t0 : GoStr),
      acc = "json_extract_path(json_strip_nulls(".data ++ t0 →
      ∃ t, P7.jsonHelperGo T acc r = "json_extract_path(json_strip_nulls(".data ++ t := by
  intro r
  induction r with
  | nil =>
    intro T acc t0 hacc
    obtain ⟨suf, hs⟩ := jsonHelperCast_suffix T acc
    exact ⟨t0 ++ suf, by rw [P7.jsonHelperGo, hs, hacc, List.append_assoc]⟩
  | cons e1 r2 ih =>
    intro T acc t0 hacc
    rw [P7.jsonHelperGo]
    exact ih T (P7.jsonWrap acc e1) (acc ++ "), \x27".data ++ e1 ++ "\x27)".data)
      (by rw [P7.jsonWrap]; simp [List.append_assoc])

theorem gpnLoop_done_inv (qdbm : P7.QueryDbMap) :
    ∀ (elems : List GoStr) (cur curF : GoStr) (jsonAcc : List GoStr) (i : Nat)
      (cur2 curF2 : GoStr) (jsonAcc2 : List GoStr),
      (jsonAcc ≠ [] ∨ '(' ∈ firstSeg '.' curF) →
      P7.gpnLoop qdbm cur curF jsonAcc i elems = .done cur2 curF2 jsonAcc2 →
      (jsonAcc2 ≠ [] ∨ '(' ∈ firstSeg '.' curF2) := by
  intro elems
  induction elems with
  | nil =>
    intro cur curF jsonAcc i cur2 curF2 jsonAcc2 hq h
    rw [P7.gpnLoop] at h
    injection h with h1 h2 h3
    rw [← h2, ← h3]
    exact hq
  | cons el rest ih =>
    intro cur curF jsonAcc i cur2 curF2 jsonAcc2 hq h
    rw [P7.gpnLoop] at h
    simp only [] at h
    split at h
    · exact ih _ _ _ _ _ _ _ (Or.inl (by simp)) h
    · split at h
      · by_cases hi : i = 0
        · rw [if_pos hi] at h
          refine ih _ _ _ _ _ _ _ (Or.inr ?_) h
          rw [show ("(".data ++ cur ++ ").".data ++ el : GoStr)
                = '(' :: (cur ++ ").".data ++ el) by simp]
          rw [firstSeg_cons, if_neg (by decide)]
          exact List.mem_cons_self _ _
        · rw [if_neg hi] at h
          refine ih _ _ _ _ _ _ _ ?_ h
          rcases hq with hq | hq
          · exact Or.inl hq
          · refine Or.inr ?_
            rw [show (curF ++ ".".data ++ el : GoStr)
                  = curF ++ '.' :: el by simp]
            rw [firstSeg_append_sep]
            exact hq
      · exact absurd h (by simp)

theorem gpn_done_case (T cf2 : GoStr) (ja2 : List GoStr)
    (hq : ja2 ≠ [] ∨ '(' ∈ firstSeg '.' cf2) :
    '(' ∈ firstSeg '.'
      (if 1 < (ja2 ++ [cf2]).length
       then P7.getParameterizedNameJsonHelper T (ja2 ++ [cf2])
       else cf2) := by
  rcases ja2 with _ | ⟨j0, more⟩
  · rw [if_neg (by simp)]
    rcases hq with hq | hq
    · exact absurd rfl hq
    · exact hq
  · rw [if_pos (by simp)]
    rw [List.cons_append, P7.getParameterizedNameJsonHelper]
    rcases hrest : more ++ [cf2] with _ | ⟨e, r2⟩
    · simp at hrest
    · rw [P7.jsonHelperGo]
      obtain ⟨t, ht⟩ := jsonHelperGo_J r2 T (P7.jsonWrap j0 e)
        (j0 ++ "), \x27".data ++ e ++ "\x27)".data)
        (by rw [P7.jsonWrap]; simp [List.append_assoc])
      rw [ht, firstSeg_append_left '.' _ t (by decide)]
      exact List.mem_append.mpr (Or.inl (by decide))

theorem gpn_main (qdbm : P7.QueryDbMap) (name : GoStr) :
    P7.getParameterizedName name qdbm = name
    ∨ '(' ∈ firstSeg '.' (P7.getParameterizedName name qdbm) := by
  rw [P7.getParameterizedName]
  rcases hsp : splitOnChar '.' name with _ | ⟨e0, rest⟩
  · exact absurd hsp (splitOnChar_ne_nil '.' name)
  · simp only [hsp]
    by_cases hr : rest = []
    · subst hr
      rw [if_pos rfl]
      exact Or.inl (splitOnChar_singleton '.' name e0 hsp)
    · rw [if_neg hr]
      rcases rest with _ | ⟨el, r⟩
      · exact absurd rfl hr
      rw [P7.gpnLoop]
      simp only []
      split
      · exact Or.inl rfl
      · rename_i c2 cf2 ja2 heq
        refine Or.inr ?_
        have hq : ja2 ≠ [] ∨ '(' ∈ firstSeg '.' cf2 := by
          split at heq
          · exact gpnLoop_done_inv qdbm r el el ([] ++ [e0]) (0 + 1) c2 cf2 ja2
              (Or.inl (by simp)) heq
          · split at heq
            · rw [if_pos (by trivial)] at heq
              have hpar : '(' ∈ firstSeg '.' ("(".data ++ e0 ++ ").".data ++ el) := by
                rw [show ("(".data ++ e0 ++ ").".data ++ el : GoStr)
                      = '(' :: (e0 ++ ").".data ++ el) by simp]
                rw [firstSeg_cons, if_neg (by decide)]
                exact List.mem_cons_self _ _
              exact gpnLoop_done_inv qdbm r (e0 ++ ".".data ++ el)
                ("(".data ++ e0 ++ ").".data ++ el) [] (0 + 1) c2 cf2 ja2
                (Or.inr hpar) heq
            · exact absurd heq (by simp)
        exact gpn_done_case (P7.detectType name qdbm) cf2 ja2 hq



/-- C8 (amended): name resolution is idempotent whenever no key of the
registry contains an opening parenthesis: resolving an already-resolved
expression is a fixed point, because a non-trivially resolved expression
starts (up to its first dot) with a parenthesized or json_extract_path
fragment whose first segment cannot be a registered json/custom field, so
the second resolution escapes identically.  With a pathological registry key
containing parentheses the round trip is not a fixed point (see the
counterexample). -/
theorem getParameterizedName_idempotent (qdbm : P7.QueryDbMap)
    (hkeys : ∀ p ∈ qdbm, '(' ∉ p.1) (name : GoStr) :
    P7.getParameterizedName (P7.getParameterizedName name qdbm) qdbm
      = P7.getParameterizedName name qdbm := by
  rcases gpn_main qdbm name with he | hpar
  · rw [he]
    exact he
  · generalize hres : P7.getParameterizedName name qdbm = res at hpar ⊢
    rw [P7.getParameterizedName]
    rcases hsp : splitOnChar '.' res with _ | ⟨s0, rest⟩
    · exact absurd hsp (splitOnChar_ne_nil '.' res)
    · simp only [hsp]
      have hs0 : '(' ∈ s0 := by
        have hfs : firstSeg '.' res = s0 := by
          rw [firstSeg, hsp]
          rfl
        rw [hfs] at hpar
        exact hpar
      by_cases hr : rest = []
      · subst hr
        rw [if_pos rfl]
        exact splitOnChar_singleton '.' res s0 hsp
      · rw [if_neg hr]
        rcases rest with _ | ⟨el, r⟩
        · exact absurd rfl hr
        rw [P7.gpnLoop]
        have hdt : P7.detectType s0 qdbm = "string".data := detectType_paren hkeys hs0
        simp only [hdt]
        rw [if_neg (by decide), if_neg (by decide)]

/-- C8 witness: a json-typed root with parenthesis-free registry keys;
resolving "a.b" gives the json-extraction expression, and resolving that
expression again is a fixed point. -/
theorem getParameterizedName_idempotent_witness :
    (∀ p ∈ ([("a".data, ⟨"a".data, "t".data, "json".data⟩)] : P7.QueryDbMap),
        '(' ∉ p.1)
    ∧ P7.getParameterizedName
        (P7.getParameterizedName "a.b".data
          [("a".data, ⟨"a".data, "t".data, "json".data⟩)])
        [("a".data, ⟨"a".data, "t".data, "json".data⟩)]
      = P7.getParameterizedName "a.b".data
          [("a".data, ⟨"a".data, "t".data, "json".data⟩)] :=
  ⟨by decide,
   getParameterizedName_idempotent
     [("a".data, ⟨"a".data, "t".data, "json".data⟩)] (by decide) "a.b".data⟩

/-- C8 counterexample: with a registry key that itself contains parentheses
("(a)" registered as json), resolving "a.b" yields "(a).b", but resolving
"(a).b" again wraps it into a json-extraction expression — the round trip is
not a fixed point, so idempotence does not hold for every registry state. -/
theorem getParameterizedName_not_idempotent_cex :
    P7.getParameterizedName "a.b".data
        [("a".data, ⟨"a".data, "t".data, "custom".data⟩),
         ("(a)".data, ⟨"a".data, "t".data, "json".data⟩)]
      = "(a).b".data
    ∧ P7.getParameterizedName
        (P7.getParameterizedName "a.b".data
          [("a".data, ⟨"a".data, "t".data, "custom".data⟩),
           ("(a)".data, ⟨"a".data, "t".data, "json".data⟩)])
        [("a".data, ⟨"a".data, "t".data, "custom".data⟩),
         ("(a)".data, ⟨"a".data, "t".data, "json".data⟩)]
      ≠ P7.getParameterizedName "a.b".data
          [("a".data, ⟨"a".data, "t".data, "custom".data⟩),
           ("(a)".data, ⟨"a".data, "t".data, "json".data⟩)] := by
  refine ⟨by decide, by decide⟩


end Rqp
